import Mathlib

/-!
# QUIT model-fitting engine: `Model.h` and `FitFunction.h`

A shallow embedding of the generic model-fitting engine of QUIT
(`Source/Core/Model.h`, `Source/Core/FitFunction.h`), followed by the helpers around it:
`RandomSeed` and `StripExt` of `Source/Util.cpp`, `ReorderImageFilter::GenerateData` of
`Source/Filters/ReorderImageFilter.hxx`, and the type dispatch of `affine_main` in
`Source/Utils/qiaffine.cpp`.

Conventions of the embedding.

* `double` is a linear ordered field `R` (the definitions are polymorphic and run on `ℚ`);
  rounding, infinities and NaN are outside the model.  `std::sqrt` is a parameter.
* Eigen arrays are lists.  An operation whose Eigen size or index precondition is violated
  (coefficient-wise operation on arrays of different sizes, `maxCoeff` of an empty array,
  indexing past the end) ends the call with `FitExit.aborted`.
* Ceres is an external capability: `Solve` maps the options, the problem and the initial value of
  the parameter block to a summary and the final value of the parameter block; the covariance
  block is read through the accessor `full(i, j)` of the matrix that `GetCovarianceBlock` filled.
* The mutable arguments of `fit` are threaded as a `FitState`; its `events` field logs the calls
  made into Ceres, in order.
* Function-local statics and filter members are explicit state; `size_t` and `int` are natural
  numbers or integers without overflow; C++ loops are run with fuel and shown to end.
-/

namespace QI

/-! ## Data model -/

/-- Return type required by the `fit` function objects. -/
structure FitReturnType where
  success : Bool
  message : String
  deriving DecidableEq, Repr

/-- Standard model interface (`struct Model`).  `NV` is the number of varying parameters.  The
members `start`, `bounds_lo`, `bounds_hi` and `sequence` are declared by the concrete models; the
fit functions use them through `this->model`, so they are fields here, `sequence` through its
`size()`.  `signal` is the instantiation of the signal template at `double`. -/
structure Model (R : Type) where
  NV : Nat
  start : List R
  bounds_lo : List R
  bounds_hi : List R
  sequence_size : Nat
  signal : List R → List R → List R

/-- Number of parameter variance/covariance entries, `NV * (NV + 1) / 2`. -/
def Model.NCov {R : Type} (m : Model R) : Nat := m.NV * (m.NV + 1) / 2

/-- A generic Ceres cost function (`struct ModelCost`): the captured model, fixed parameters and
observed data. -/
structure ModelCost (R : Type) where
  model : Model R
  fixed : List R
  data : List R

/-- The `ceres::Problem` assembled by `fit`: one residual block (the auto-differentiated cost and
its declared number of residuals) and the box constraints set for each `i < NV`. -/
structure Problem (R : Type) where
  cost : ModelCost R
  num_residuals : Nat
  lower : List (Option R)
  upper : List (Option R)

/-- The fields of `ceres::Solver::Options` that `fit` sets. -/
structure SolverOptions (R : Type) where
  max_num_iterations : Int
  function_tolerance : R
  gradient_tolerance : R
  parameter_tolerance : R
  silent : Bool

/-- What `fit` reads from `ceres::Solver::Summary`. -/
structure Summary where
  isSolutionUsable : Bool
  fullReport : String
  iterations_size : Nat

/-- The external numerical capabilities: `std::sqrt`, `ceres::Solve` and the covariance block of
a solved problem.  `covariance problem v i j` is `full(i, j)`, the entry the code reads from the
matrix that `GetCovarianceBlock(v, v, full.data())` filled; the block of a parameter with itself
is a symmetric matrix, so the storage order of `full` does not matter. -/
structure External (R : Type) where
  sqrt : R → R
  Solve : SolverOptions R → Problem R → List R → Summary × List R
  covariance : Problem R → List R → Nat → Nat → R

/-- Calls made into Ceres, as logged in `FitState.events`. -/
inductive Event where
  | problemBuilt
  | solve
  | covariance
  deriving DecidableEq, Repr

/-- The mutable arguments of `fit` (`p`, `cov`, `rmse`, `residuals`, `iterations`) together with
the log of calls into Ceres.  `cov = none` is the null pointer. -/
structure FitState (R : Type) where
  p : List R
  cov : Option (List R)
  rmse : R
  residuals : List (List R)
  iterations : Int
  events : List Event

/-- How a call of `fit` ends: it returns a `FitReturnType`, or an Eigen size/index precondition
was violated. -/
inductive FitExit where
  | returned (r : FitReturnType)
  | aborted
  deriving DecidableEq, Repr

/-! ## Array primitives -/

section Arrays

variable {R : Type}

/-- Coefficient-wise difference of two Eigen arrays; the sizes must agree. -/
def arraySub [Sub R] (a b : List R) : Option (List R) :=
  if a.length = b.length then some (List.zipWith (fun x y => x - y) a b) else none

/-- Eigen `maxCoeff()`; the array must not be empty. -/
def maxCoeff [Max R] : List R → Option R
  | [] => none
  | x :: xs => some (xs.foldl max x)

/-- The value `rs.square().sum()`. -/
def squareSum [Mul R] [Add R] [Zero R] (rs : List R) : R :=
  (rs.map (fun x => x * x)).sum

/-- Assignment `a[i] = x`; the index must be in range. -/
def writeAt (a : List R) (i : Nat) (x : R) : Option (List R) :=
  if i < a.length then some (a.set i x) else none

end Arrays

/-! ## Residual functor -/

section Cost

variable {R : Type} [LinearOrderedField R]

/-- The call `ModelCost::operator()` at `T = double`: `residual = data - signal`, returns
`true`.  The residual map has `data.rows()` entries. -/
def ModelCost.call (c : ModelCost R) (vin : List R) : Option (Bool × List R) :=
  match arraySub c.data (c.model.signal vin c.fixed) with
  | none => none
  | some residual => some (true, residual)

end Cost

/-! ## Covariance extractor -/

section Covariance

variable {R : Type} [LinearOrderedField R]

/-- State of the correlation loop of `GetModelCovariance`: the buffer `cov`, the running `index`
and the list of slots written so far (oldest first). -/
structure CovLoop (R : Type) where
  cov : List R
  index : Nat
  writes : List Nat

/-- Body of the inner loop: `cov[index++] = full(ii, jj) / (cov[ii] * cov[jj])`. -/
def covBody (full : Nat → Nat → R) (ii : Nat) (s : CovLoop R) (jj : Nat) : Option (CovLoop R) :=
  match s.cov[ii]?, s.cov[jj]? with
  | some ci, some cj =>
    match writeAt s.cov s.index (full ii jj / (ci * cj)) with
    | some cov1 => some ⟨cov1, s.index + 1, s.writes ++ [s.index]⟩
    | none => none
  | _, _ => none

/-- The inner loop `for (int jj = ii + 1; jj < NV; jj++)`. -/
def covInner (full : Nat → Nat → R) (NV : Nat) (s : CovLoop R) (ii : Nat) : Option (CovLoop R) :=
  (List.range' (ii + 1) (NV - (ii + 1))).foldlM (covBody full ii) s

/-- The outer loop `for (int ii = 0; ii < NV; ii++)`. -/
def covOuter (full : Nat → Nat → R) (NV : Nat) (s : CovLoop R) : Option (CovLoop R) :=
  (List.range NV).foldlM (covInner full NV) s

/-- The assignment `cov.head(NV) = full.diagonal().array().sqrt()`. -/
def setHeadSqrt (sqrt : R → R) (NV : Nat) (full : Nat → Nat → R) (cov : List R) :
    Option (List R) :=
  if NV ≤ cov.length then
    some ((List.range NV).map (fun i => sqrt (full i i)) ++ cov.drop NV)
  else none

/-- The assignment `cov.head(NV) /= v`. -/
def divHead (NV : Nat) (v : List R) (cov : List R) : Option (List R) :=
  if NV ≤ cov.length ∧ v.length = NV then
    some (List.zipWith (fun c x => c / x) (cov.take NV) v ++ cov.drop NV)
  else none

/-- The covariance extractor with its write log: `block` is the accessor of the matrix filled by
`GetCovarianceBlock`, `full *= scale` multiplies every entry by `scale`. -/
def GetModelCovarianceLoop (sqrt : R → R) (NV : Nat) (block : Nat → Nat → R) (v : List R)
    (scale : R) (cov : List R) : Option (CovLoop R) :=
  let full : Nat → Nat → R := fun i j => block i j * scale
  match setHeadSqrt sqrt NV full cov with
  | none => none
  | some cov1 =>
    match covOuter full NV ⟨cov1, NV, []⟩ with
    | none => none
    | some s =>
      match divHead NV v s.cov with
      | none => none
      | some cov2 => some ⟨cov2, s.index, s.writes⟩

/-- Convert the covariance matrix from Ceres into relative standard errors and correlations
(`GetModelCovariance`): the contents of `*ptr` afterwards. -/
def GetModelCovariance (sqrt : R → R) (NV : Nat) (block : Nat → Nat → R) (v : List R)
    (scale : R) (cov : List R) : Option (List R) :=
  (GetModelCovarianceLoop sqrt NV block v scale cov).map CovLoop.cov

/-- Value of the running index when row `i` of the correlation loop starts,
`NV + i * NV - i * (i + 1) / 2`. -/
def rowStart (NV i : Nat) : Nat := NV + i * NV - i * (i + 1) / 2

/-- Reference layout, from the specification: the slot of the correlation of the parameters
`i < j` is `NV + i * NV - i * (i + 1) / 2 + (j - i - 1)`. -/
def corrSlot (NV i j : Nat) : Nat := NV + i * NV - i * (i + 1) / 2 + (j - i - 1)

/-- Reference value, from the specification: the standard deviation `sd_i = sqrt (k * C[i][i])`
of parameter `i`, before it is divided by the parameter value. -/
def sdRef (sqrt : R → R) (C : Nat → Nat → R) (k : R) (i : Nat) : R := sqrt (k * C i i)

end Covariance

/-! ## Fit strategies -/

section Fit

variable {R : Type} [LinearOrderedField R]

/-- The value `std::numeric_limits<double>::epsilon()`, that is `2^-52`. -/
def epsilon : R := 1 / 2 ^ 52

/-- The problem built by both strategies: `Cost(model, fixed, data)`, wrapped in an
`AutoCost` with `model.sequence.size()` residuals, and the bounds of every `i < NV`. -/
def buildProblem (model : Model R) (fixed data : List R) : Problem R where
  cost := ⟨model, fixed, data⟩
  num_residuals := model.sequence_size
  lower := (List.range model.NV).map (fun i => model.bounds_lo[i]?)
  upper := (List.range model.NV).map (fun i => model.bounds_hi[i]?)

/-- The solver options set by both strategies. -/
def solverOptions (max_iterations : Int) : SolverOptions R where
  max_num_iterations := max_iterations
  function_tolerance := 1 / 10 ^ 6
  gradient_tolerance := 1 / 10 ^ 7
  parameter_tolerance := 1 / 10 ^ 5
  silent := true

/-- The function object `NLLSFitFunction`. -/
structure NLLSFitFunction (R : Type) where
  model : Model R
  max_iterations : Int := 100

/-- The function object `ScaledNLLSFitFunction`. -/
structure ScaledNLLSFitFunction (R : Type) where
  model : Model R
  max_iterations : Int := 100

/-- The method `NLLSFitFunction::fit`. -/
def NLLSFitFunction.fit (ext : External R) (f : NLLSFitFunction R) (inputs : List (List R))
    (fixed : List R) (st : FitState R) : FitExit × FitState R :=
  match inputs with
  | [] => (.aborted, st)
  | data :: _ =>
    let problem := buildProblem f.model fixed data
    let st1 : FitState R := { st with events := st.events ++ [Event.problemBuilt] }
    let options : SolverOptions R := solverOptions f.max_iterations
    let st2 : FitState R := { st1 with p := f.model.start }
    let solved := ext.Solve options problem st2.p
    let st3 : FitState R := { st2 with p := solved.2, events := st2.events ++ [Event.solve] }
    if !solved.1.isSolutionUsable then
      (.returned ⟨false, solved.1.fullReport⟩, st3)
    else
      let st4 : FitState R := { st3 with iterations := (solved.1.iterations_size : Int) }
      match arraySub data (f.model.signal st4.p fixed) with
      | none => (.aborted, st4)
      | some rs =>
        let var : R := squareSum rs
        let st5 : FitState R := { st4 with rmse := ext.sqrt (var / (data.length : R)) }
        let st6 : FitState R :=
          { st5 with residuals :=
              if st5.residuals.length > 0 then st5.residuals.set 0 rs else st5.residuals }
        match st6.cov with
        | none => (.returned ⟨true, ""⟩, st6)
        | some cov =>
          let st7 : FitState R := { st6 with events := st6.events ++ [Event.covariance] }
          match GetModelCovariance ext.sqrt f.model.NV (ext.covariance problem st7.p) st7.p
                  (var / (((data.length : Int) - (f.model.NV : Int) : Int) : R)) cov with
          | none => (.aborted, st7)
          | some cov1 => (.returned ⟨true, ""⟩, { st7 with cov := some cov1 })

/-- The assignment `p[0] = p[0] * scale`. -/
def scaleFirst (p : List R) (scale : R) : Option (List R) :=
  match p with
  | [] => none
  | p0 :: ps => some (p0 * scale :: ps)

/-- The method `ScaledNLLSFitFunction::fit`. -/
def ScaledNLLSFitFunction.fit (ext : External R) (f : ScaledNLLSFitFunction R)
    (inputs : List (List R)) (fixed : List R) (st : FitState R) : FitExit × FitState R :=
  match inputs with
  | [] => (.aborted, st)
  | input0 :: _ =>
    match maxCoeff input0 with
    | none => (.aborted, st)
    | some scale =>
      if scale < epsilon then
        (.returned ⟨false, "Maximum data value was not positive"⟩,
          { st with p := List.replicate f.model.NV 0, rmse := 0 })
      else
        let data : List R := input0.map (fun x => x / scale)
        let problem := buildProblem f.model fixed data
        let st1 : FitState R := { st with events := st.events ++ [Event.problemBuilt] }
        let options : SolverOptions R := solverOptions f.max_iterations
        let st2 : FitState R := { st1 with p := f.model.start }
        let solved := ext.Solve options problem st2.p
        let st3 : FitState R := { st2 with p := solved.2, events := st2.events ++ [Event.solve] }
        if !solved.1.isSolutionUsable then
          (.returned ⟨false, solved.1.fullReport⟩, st3)
        else
          let st4 : FitState R := { st3 with iterations := (solved.1.iterations_size : Int) }
          match arraySub data (f.model.signal st4.p fixed) with
          | none => (.aborted, st4)
          | some rs =>
            let var : R := squareSum rs
            let st5 : FitState R :=
              { st4 with rmse := ext.sqrt (var / (data.length : R)) * scale }
            let st6 : FitState R :=
              { st5 with residuals :=
                  if st5.residuals.length > 0 then
                    st5.residuals.set 0 (rs.map (fun x => x * scale))
                  else st5.residuals }
            match st6.cov with
            | none =>
              match scaleFirst st6.p scale with
              | none => (.aborted, st6)
              | some p1 => (.returned ⟨true, ""⟩, { st6 with p := p1 })
            | some cov =>
              let st7 : FitState R := { st6 with events := st6.events ++ [Event.covariance] }
              match GetModelCovariance ext.sqrt f.model.NV (ext.covariance problem st7.p)
                      st7.p (var / (((data.length : Int) - (f.model.NV : Int) : Int) : R))
                      cov with
              | none => (.aborted, st7)
              | some cov1 =>
                let st8 : FitState R := { st7 with cov := some cov1 }
                match scaleFirst st8.p scale with
                | none => (.aborted, st8)
                | some p1 => (.returned ⟨true, ""⟩, { st8 with p := p1 })

end Fit

/-! ## Bounded least squares, the notion of solution -/

section LeastSquares

variable {R : Type} [LinearOrderedField R]

/-- The objective of the problem at the parameter vector `q`: the sum of the squares of the
residuals returned by the cost functor. -/
def Problem.objective (pr : Problem R) (q : List R) : Option R :=
  match pr.cost.call q with
  | none => none
  | some r => some (squareSum r.2)

/-- The vector `q` has one entry per bounded parameter and satisfies the box constraints of the
problem on every parameter from index `k` on. -/
def Problem.withinBoundsFrom (pr : Problem R) (k : Nat) (q : List R) : Prop :=
  q.length = pr.lower.length ∧
  ∀ (i : Nat) (x : R), k ≤ i → q[i]? = some x →
    (∀ lo : R, pr.lower[i]? = some (some lo) → lo ≤ x) ∧
    (∀ hi : R, pr.upper[i]? = some (some hi) → x ≤ hi)

/-- Bounded nonlinear least squares, as the glossary of the specification defines it: `q`
minimises the sum of squared residuals subject to the box constraints, here those of the
parameters from index `k` on (`k = 0`: all of them; `k = 1`: the first parameter is free). -/
def Problem.IsMinimiserFrom (pr : Problem R) (k : Nat) (q : List R) : Prop :=
  pr.withinBoundsFrom k q ∧
  ∃ c : R, pr.objective q = some c ∧
    ∀ (q1 : List R) (c1 : R), pr.withinBoundsFrom k q1 → pr.objective q1 = some c1 → c ≤ c1

end LeastSquares

/-! ## Concrete instances over `ℚ` -/

section Instances

/-- Integer square root by downward search from `k`. -/
def isqrtFrom : Nat → Nat → Nat
  | 0, _ => 0
  | k + 1, n => if (k + 1) * (k + 1) ≤ n then k + 1 else isqrtFrom k n

/-- A square root on `ℚ`, exact on squares of rationals and `0` on negative numbers. -/
def qsqrt (q : ℚ) : ℚ :=
  (isqrtFrom q.num.toNat q.num.toNat : ℚ) / (isqrtFrom q.den q.den : ℚ)

/-- The constant-amplitude model with `frames` acquisition frames: one varying parameter `A`
bounded by `lo` and `hi`, `signal = [A, ..., A]`. -/
def ampModel (frames : Nat) (lo hi start : ℚ) : Model ℚ where
  NV := 1
  start := [start]
  bounds_lo := [lo]
  bounds_hi := [hi]
  sequence_size := frames
  signal := fun v _ => List.replicate frames (v.headD 0)

/-- An exact bounded least-squares solver for `ampModel`: the mean of the data clamped to the
bounds of the first parameter; it always reports a usable solution after one iteration. -/
def ampSolve (_ : SolverOptions ℚ) (pr : Problem ℚ) (p0 : List ℚ) : Summary × List ℚ :=
  let mean : ℚ := pr.cost.data.sum / (pr.cost.data.length : ℚ)
  let lo : ℚ := (pr.lower.headD none).getD mean
  let hi : ℚ := (pr.upper.headD none).getD mean
  (⟨true, "", 1⟩, max lo (min hi mean) :: p0.tail)

/-- A solver that makes no step: it reports its start point as a usable solution after one
iteration. -/
def echoSolve (_ : SolverOptions ℚ) (_ : Problem ℚ) (p0 : List ℚ) : Summary × List ℚ :=
  (⟨true, "", 1⟩, p0)

/-- A solver that gives up at once and reports its start point as unusable. -/
def failSolve (_ : SolverOptions ℚ) (_ : Problem ℚ) (p0 : List ℚ) : Summary × List ℚ :=
  (⟨false, "Solver failed", 0⟩, p0)

/-- The capabilities used in the examples: `qsqrt`, a solver, and the covariance block of the
constant-amplitude model, the inverse `1 / frames` of its `1 × 1` normal matrix. -/
def exampleExternal (solve : SolverOptions ℚ → Problem ℚ → List ℚ → Summary × List ℚ) : External ℚ where
  sqrt := qsqrt
  Solve := solve
  covariance := fun pr _ i j => if i = j then 1 / (pr.cost.data.length : ℚ) else 0

/-- A state on entry to `fit`: no covariance and no residuals requested. -/
def entryState : FitState ℚ := ⟨[7], none, 5, [], 3, []⟩

/-- A state on entry to `fit`: residuals requested, no covariance. -/
def entryStateResiduals : FitState ℚ := ⟨[7], none, 5, [[]], 3, []⟩

/-- A state on entry to `fit`: covariance (one slot, `NV = 1`) and residuals requested. -/
def entryStateAll : FitState ℚ := ⟨[7], some [9], 5, [[]], 3, []⟩

end Instances

/-! ## `Util.cpp`: the shared random generator -/

section Random

/-- The function-local statics of `RandomSeed`: the number of values already taken from the
`random_device rd`, the generator `rng`, the flag `init`, and a count of the assignments
`rng = mt19937_64(rd())` made so far. -/
structure SeedState (G : Type) where
  rd_taken : Nat
  rng : G
  init : Bool
  seedings : Nat

/-- The random library behind `RandomSeed`: `device k` is the `k`-th value that `rd()` returns,
`seeded x` is `mt19937_64(x)`, and `next g` is the call `g()`, the value drawn and the advanced
generator. -/
structure RandomLib (G : Type) where
  device : Nat → Nat
  seeded : Nat → G
  next : G → Nat × G

/-- The statics before the first call: a default-constructed generator (seed `5489`) and
`init = false`. -/
def SeedState.initial {G : Type} (lib : RandomLib G) : SeedState G :=
  ⟨0, lib.seeded 5489, false, 0⟩

/-- The function `RandomSeed`: when `init` is false the generator is replaced by one seeded from
the device; then one value is drawn.  The mutex is a local of the call and has no effect on a
single thread.  No statement of the function assigns `init`. -/
def RandomSeed {G : Type} (lib : RandomLib G) (s : SeedState G) : Nat × SeedState G :=
  let s1 : SeedState G :=
    if !s.init then
      { s with rng := lib.seeded (lib.device s.rd_taken), rd_taken := s.rd_taken + 1,
               seedings := s.seedings + 1 }
    else s
  let drawn := lib.next s1.rng
  (drawn.1, { s1 with rng := drawn.2 })

/-- The values returned by `n` successive calls of `RandomSeed`, and the statics afterwards. -/
def RandomSeedCalls {G : Type} (lib : RandomLib G) : Nat → SeedState G → List Nat × SeedState G
  | 0, s => ([], s)
  | n + 1, s =>
    let first := RandomSeed lib s
    let others := RandomSeedCalls lib n first.2
    (first.1 :: others.1, others.2)

/-- A toy library: the device returns `1000, 2000, 3000, ...`, a generator is a counter that
starts at its seed and returns its successive values. -/
def counterLib : RandomLib Nat where
  device := fun k => 1000 * (k + 1)
  seeded := fun x => x
  next := fun g => (g, g + 1)

end Random

/-! ## `Util.cpp`: file names -/

section FileNames

/-- Left-to-right scan behind `find_last_of`: `best` is the last index seen so far at which the
character occurs, `i` the index of the head of the list. -/
def findLastFrom (c : Char) : List Char → Nat → Option Nat → Option Nat
  | [], _, best => best
  | x :: xs, i, best => findLastFrom c xs (i + 1) (if x = c then some i else best)

/-- The call `s.find_last_of(c, pos)` for a single character: the greatest index `i ≤ pos` with
`s[i] = c`.  The position `none` is `npos`, for which the whole string is searched; the result
`none` is `npos`, nothing found. -/
def find_last_of (s : List Char) (c : Char) (pos : Option Nat) : Option Nat :=
  match pos with
  | none => findLastFrom c s 0 none
  | some p => findLastFrom c (s.take (p + 1)) 0 none

/-- The function `StripExt` on the characters of the file name: `substr(dot)` is `drop dot`,
`substr(0, dot)` is `take dot` (the whole string when `dot` is `npos`). -/
def StripExtChars (filename : List Char) : List Char :=
  match find_last_of filename '.' none with
  | some dot =>
    let dot1 : Option Nat :=
      if filename.drop dot = ['g', 'z'] then find_last_of filename '.' (some dot) else some dot
    match dot1 with
    | some d => filename.take d
    | none => filename
  | none => filename

/-- The function `StripExt`. -/
def StripExt (filename : String) : String :=
  String.mk (StripExtChars filename.toList)

end FileNames

/-! ## `ReorderImageFilter.hxx` -/

section Reorder

/-- The members of `ReorderImageFilter` that `GenerateData` reads and writes. -/
structure ReorderImageFilter where
  m_stride : Nat
  m_blocksize : Nat
  m_fullsize : Nat
  m_blocks : Nat
  deriving DecidableEq, Repr

/-- State of the copy loops: the output counter `o` and the calls of `ImageAlgorithm::Copy` made
so far, each as the pair (input volume, output volume) of indices along the last dimension. -/
structure CopyState where
  o : Nat
  copies : List (Nat × Nat)
  deriving DecidableEq, Repr

/-- A loop `for (i = start; i < limit; i += step) body` run for at most `fuel` iterations;
`none` when the fuel does not reach the end of the loop. -/
def loopFrom {σ : Type} (limit step : Nat) (body : Nat → σ → Option σ) :
    Nat → Nat → σ → Option σ
  | 0, i, s => if i < limit then none else some s
  | fuel + 1, i, s =>
    if i < limit then
      match body i s with
      | none => none
      | some s1 => loopFrom limit step body fuel (i + step) s1
    else some s

/-- Body of the innermost loop: copy input volume `i` to output volume `o`, then `o++`. -/
def copyVolume (i : Nat) (s : CopyState) : Option CopyState :=
  some ⟨s.o + 1, s.copies ++ [(i, s.o)]⟩

/-- The loop `for (size_t i = is; i < (b + m_blocksize); i += m_stride)`. -/
def volumeLoop (f : ReorderImageFilter) (fuel b is : Nat) (s : CopyState) : Option CopyState :=
  loopFrom (b + f.m_blocksize) f.m_stride copyVolume fuel is s

/-- The loop `for (size_t is = b; is < (b + m_stride); is++)`. -/
def setLoop (f : ReorderImageFilter) (fuel b : Nat) (s : CopyState) : Option CopyState :=
  loopFrom (b + f.m_stride) 1 (volumeLoop f fuel b) fuel b s

/-- The loop `for (size_t b = 0; b < m_fullsize; b += m_blocksize)`. -/
def blockLoop (f : ReorderImageFilter) (fuel : Nat) (s : CopyState) : Option CopyState :=
  loopFrom f.m_fullsize f.m_blocksize (setLoop f fuel) fuel 0 s

/-- How `GenerateData` ends. -/
inductive ReorderExit where
  | done (copies : List (Nat × Nat))
  | runtime_error (what : String)
  | divisionByZero
  | outOfFuel
  deriving DecidableEq, Repr

/-- The method `ReorderImageFilter::GenerateData`, for an input whose last dimension has
`lastSize` volumes: the members afterwards and the way the call ends.  Each loop makes at most
`m_fullsize` iterations, which is the fuel given to it. -/
def GenerateData (f : ReorderImageFilter) (lastSize : Nat) : ReorderImageFilter × ReorderExit :=
  let f1 : ReorderImageFilter := { f with m_fullsize := lastSize }
  let f2 : ReorderImageFilter :=
    if f1.m_blocksize = 0 then { f1 with m_blocksize := f1.m_fullsize } else f1
  if f2.m_blocksize = 0 then (f2, .divisionByZero)
  else if f2.m_fullsize % f2.m_blocksize ≠ 0 then
    (f2, .runtime_error "Fullsize must be an integer multiple of blocksize.")
  else if f2.m_stride = 0 then (f2, .divisionByZero)
  else if f2.m_blocksize % f2.m_stride ≠ 0 then
    (f2, .runtime_error ("Blocksize (" ++ toString f2.m_blocksize
      ++ ") must be an integer multiple of stride (" ++ toString f2.m_stride ++ ")."))
  else
    let f3 : ReorderImageFilter := { f2 with m_blocks := f2.m_fullsize / f2.m_blocksize }
    match blockLoop f3 f3.m_fullsize ⟨0, []⟩ with
    | none => (f3, .outOfFuel)
    | some s => (f3, .done s.copies)

/-- Reference mapping, from the claim: within the block starting at `b = B * blocksize`, the
input volume `b + s + k * stride` goes to the output volume `b + s * (blocksize / stride) + k`,
in the order of increasing `B`, then `s`, then `k`. -/
def reorderPairs (blocks blocksize stride : Nat) : List (Nat × Nat) :=
  (List.range blocks).flatMap (fun B =>
    (List.range stride).flatMap (fun s =>
      (List.range (blocksize / stride)).map (fun k =>
        (B * blocksize + s + k * stride, B * blocksize + s * (blocksize / stride) + k))))

end Reorder

/-! ## `qiaffine.cpp`: the type dispatch of `affine_main` -/

section Affine

/-- The component types of `itk::ImageIOBase` that the `switch` of `affine_main` can meet. -/
inductive IOComponentType where
  | UNKNOWNCOMPONENTTYPE
  | UCHAR
  | CHAR
  | USHORT
  | SHORT
  | UINT
  | INT
  | ULONG
  | LONG
  | LONGLONG
  | ULONGLONG
  | FLOAT
  | DOUBLE
  deriving DecidableEq, Repr

/-- The element types with which the pipeline lambda is instantiated. -/
inductive PixelType where
  | float
  | double
  deriving DecidableEq, Repr

/-- The three calls of `QI::Fail` in the dispatch. -/
inductive FailMessage where
  | unsupportedDimensions
  | unknownComponentType
  | unimplementedComponentType
  deriving DecidableEq, Repr

/-- What the dispatch does, in order: a run of `pipeline.operator()<T, N>()` or a call of
`QI::Fail`. -/
inductive AffineEvent where
  | pipeline (T : PixelType) (N : Nat)
  | fail (message : FailMessage)
  deriving DecidableEq, Repr

/-- How `affine_main` ends: `return` of a status, or the process is ended by `QI::Fail`. -/
inductive AffineExit where
  | returned (status : Nat)
  | exited (status : Nat)
  deriving DecidableEq, Repr

/-- A run of the dispatch: the events in order and the way it ends. -/
structure AffineRun where
  events : List AffineEvent
  exit : AffineExit
  deriving DecidableEq, Repr

/-- The status `EXIT_SUCCESS`. -/
def EXIT_SUCCESS : Nat := 0

/-- The status `EXIT_FAILURE`. -/
def EXIT_FAILURE : Nat := 1

/-- A call of `QI::Fail` followed by the rest of the function.  `QI::Fail` is declared outside
the sources at hand; `failEnds` says whether it ends the process (with `EXIT_FAILURE`) or returns
to its caller. -/
def Fail (failEnds : Bool) (message : FailMessage) (rest : List AffineEvent → AffineRun)
    (events : List AffineEvent) : AffineRun :=
  if failEnds then ⟨events ++ [AffineEvent.fail message], AffineExit.exited EXIT_FAILURE⟩
  else rest (events ++ [AffineEvent.fail message])

/-- The inner `switch (dims)` of a case: `case 3` and `case 4` run the pipeline and `break` out
of the inner switch; any other value runs nothing. -/
def dimsSwitch (T : PixelType) (dims : Nat) (events : List AffineEvent) : List AffineEvent :=
  if dims = 3 then events ++ [AffineEvent.pipeline T 3]
  else if dims = 4 then events ++ [AffineEvent.pipeline T 4]
  else events

/-- The statements from `default:` on: `QI::Fail("Unimplemented component type ...")`, then
`return EXIT_SUCCESS`. -/
def defaultCase (failEnds : Bool) (events : List AffineEvent) : AffineRun :=
  Fail failEnds FailMessage.unimplementedComponentType
    (fun ev => ⟨ev, AffineExit.returned EXIT_SUCCESS⟩) events

/-- The statements from `case DOUBLE:` on: the inner switch, after which control falls through
to `default:`, no `break` following the inner switch. -/
def doubleCase (failEnds : Bool) (dims : Nat) (events : List AffineEvent) : AffineRun :=
  defaultCase failEnds (dimsSwitch PixelType.double dims events)

/-- The statements from `case FLOAT:` on: the inner switch, after which control falls through to
`case DOUBLE:`. -/
def floatCase (failEnds : Bool) (dims : Nat) (events : List AffineEvent) : AffineRun :=
  doubleCase failEnds dims (dimsSwitch PixelType.float dims events)

/-- The statements from `case UNKNOWNCOMPONENTTYPE:` on. -/
def unknownCase (failEnds : Bool) (dims : Nat) (events : List AffineEvent) : AffineRun :=
  Fail failEnds FailMessage.unknownComponentType (floatCase failEnds dims) events

/-- The statement `switch (dtype)`. -/
def dtypeSwitch (failEnds : Bool) (dims : Nat) (dtype : IOComponentType)
    (events : List AffineEvent) : AffineRun :=
  match dtype with
  | IOComponentType.UNKNOWNCOMPONENTTYPE => unknownCase failEnds dims events
  | IOComponentType.FLOAT => floatCase failEnds dims events
  | IOComponentType.DOUBLE => doubleCase failEnds dims events
  | _ => defaultCase failEnds events

/-- The type dispatch of `affine_main` (from `if (dims < 3 || dims > 4)` to the final `return`)
for an image header with `dims` dimensions and component type `dtype`. -/
def affine_dispatch (failEnds : Bool) (dims : Nat) (dtype : IOComponentType) : AffineRun :=
  if dims < 3 ∨ dims > 4 then
    Fail failEnds FailMessage.unsupportedDimensions (dtypeSwitch failEnds dims dtype) []
  else dtypeSwitch failEnds dims dtype []

end Affine

/-! ## Theorems -/

section ArrayLemmas

variable {R : Type} [LinearOrderedField R]

theorem foldl_max_ge_init (xs : List R) (x : R) : x ≤ xs.foldl max x := by
  induction xs generalizing x with
  | nil => simp
  | cons y ys ih => exact le_trans (le_max_left x y) (ih (max x y))

theorem foldl_max_ge_mem (xs : List R) (x : R) : ∀ y ∈ xs, y ≤ xs.foldl max x := by
  induction xs generalizing x with
  | nil => simp
  | cons z zs ih =>
    intro y hy
    rcases List.mem_cons.1 hy with rfl | hy
    · exact le_trans (le_max_right x y) (foldl_max_ge_init zs (max x y))
    · exact ih (max x z) y hy

theorem foldl_max_mem (xs : List R) (x : R) : xs.foldl max x = x ∨ xs.foldl max x ∈ xs := by
  induction xs generalizing x with
  | nil => simp
  | cons z zs ih =>
    rcases ih (max x z) with h | h
    · rcases max_choice x z with hx | hz
      · left; simpa [hx] using h
      · right
        rw [List.foldl_cons, h, hz]
        exact List.mem_cons_self _ _
    · right; exact List.mem_cons_of_mem _ h

/-- The value `maxCoeff a` is the greatest entry of `a`. -/
theorem maxCoeff_eq_some_iff (a : List R) (m : R) :
    maxCoeff a = some m ↔ m ∈ a ∧ ∀ x ∈ a, x ≤ m := by
  cases a with
  | nil => simp [maxCoeff]
  | cons x xs =>
    simp only [maxCoeff, Option.some.injEq]
    constructor
    · rintro rfl
      refine ⟨?_, ?_⟩
      · rcases foldl_max_mem xs x with h | h
        · rw [h]; exact List.mem_cons_self _ _
        · exact List.mem_cons_of_mem _ h
      · intro y hy
        rcases List.mem_cons.1 hy with rfl | hy
        · exact foldl_max_ge_init xs y
        · exact foldl_max_ge_mem xs x y hy
    · rintro ⟨hm, hub⟩
      apply le_antisymm
      · rcases foldl_max_mem xs x with h | h
        · rw [h]; exact hub x (List.mem_cons_self _ _)
        · exact hub _ (List.mem_cons_of_mem _ h)
      · rcases List.mem_cons.1 hm with rfl | hm
        · exact foldl_max_ge_init xs m
        · exact foldl_max_ge_mem xs x m hm

theorem epsilon_pos : (0 : R) < epsilon := by
  unfold epsilon
  positivity

theorem squareSum_nonneg (rs : List R) : 0 ≤ squareSum rs := by
  unfold squareSum
  induction rs with
  | nil => simp
  | cons x xs ih =>
    simp only [List.map_cons, List.sum_cons]
    exact add_nonneg (mul_self_nonneg x) ih

end ArrayLemmas

section Evaluation

theorem qsqrt_zero : qsqrt 0 = 0 := by
  simp [qsqrt, isqrtFrom]

theorem qsqrt_one : qsqrt 1 = 1 := by
  simp [qsqrt, isqrtFrom]

theorem isqrtFrom_mul_self (k n : Nat) (h : n ≤ k) : isqrtFrom k (n * n) = n := by
  induction k with
  | zero =>
    obtain rfl : n = 0 := by omega
    rfl
  | succ k ih =>
    unfold isqrtFrom
    split
    · rename_i hle
      have hk : k + 1 ≤ n := by
        by_contra hlt
        have h1 : n * n < (k + 1) * (k + 1) :=
          Nat.mul_self_lt_mul_self (Nat.lt_of_not_le hlt)
        omega
      omega
    · rename_i hle
      apply ih
      by_contra hlt
      have hn : n = k + 1 := by omega
      exact hle (by rw [hn])

theorem qsqrt_mul_self (q : ℚ) (hq : 0 ≤ q) : qsqrt (q * q) = q := by
  unfold qsqrt
  rw [Rat.mul_self_num, Rat.mul_self_den]
  have hnum : 0 ≤ q.num := Rat.num_nonneg.2 hq
  obtain ⟨m, hm⟩ := Int.eq_ofNat_of_zero_le hnum
  have h1 : (q.num * q.num).toNat = m * m := by
    rw [hm]
    exact Int.toNat_natCast (m * m)
  rw [h1, isqrtFrom_mul_self (m * m) m (Nat.le_mul_self m),
    isqrtFrom_mul_self (q.den * q.den) q.den (Nat.le_mul_self q.den)]
  have h2 : ((m : ℤ) : ℚ) / (q.den : ℚ) = q := by
    rw [← hm]
    exact Rat.num_div_den q
  simpa using h2

theorem qsqrt_nonneg (q : ℚ) : 0 ≤ qsqrt q :=
  div_nonneg (Nat.cast_nonneg _) (Nat.cast_nonneg _)

/-- The direct fit of the constant-amplitude model to `[1, 3]`, covariance requested. -/
theorem direct_fit_positive_example :
    NLLSFitFunction.fit (exampleExternal ampSolve) ⟨ampModel 2 0 1000 1, 100⟩
        ([1, 3] :: []) [] entryStateAll =
      (FitExit.returned ⟨true, ""⟩,
        ⟨[2], some [1 / 2], 1, [[-1, 1]], 1,
          [Event.problemBuilt, Event.solve, Event.covariance]⟩) := by
  simp [NLLSFitFunction.fit, exampleExternal, ampSolve, ampModel, entryStateAll,
    buildProblem, arraySub, squareSum, List.range_succ, GetModelCovariance,
    GetModelCovarianceLoop, setHeadSqrt, covOuter, covInner, divHead]
  norm_num [qsqrt_one]

theorem qsqrt_sixteenth : qsqrt (1 / 16) = 1 / 4 := by
  rw [show (1 / 16 : ℚ) = (1 / 4) * (1 / 4) by norm_num]
  exact qsqrt_mul_self _ (by norm_num)

/-- The direct fit of the constant-amplitude model to the normalised data `[1/2, 1]`. -/
theorem direct_fit_normalised_example :
    NLLSFitFunction.fit (exampleExternal ampSolve) ⟨ampModel 2 0 1000 1, 100⟩
        ([2, 4].map (fun x => x / 4) :: []) [] entryStateResiduals =
      (FitExit.returned ⟨true, ""⟩,
        ⟨[3 / 4], none, 1 / 4, [[-1 / 4, 1 / 4]], 1, [Event.problemBuilt, Event.solve]⟩) := by
  simp [NLLSFitFunction.fit, exampleExternal, ampSolve, ampModel, entryStateResiduals,
    buildProblem, arraySub, squareSum, List.range_succ]
  norm_num [qsqrt_sixteenth]

/-- The objective of the two-frame constant-amplitude problem. -/
theorem amp_objective (lo hi st x y a : ℚ) (r : List ℚ) :
    (buildProblem (ampModel 2 lo hi st) [] [x, y]).objective (a :: r)
      = some ((x - a) * (x - a) + (y - a) * (y - a)) := by
  simp [Problem.objective, ModelCost.call, buildProblem, ampModel, arraySub, squareSum,
    List.replicate]

/-- The box of the constant-amplitude problem: one parameter between `lo` and `hi`. -/
theorem amp_withinBounds_zero (n : Nat) (lo hi st : ℚ) (dd q : List ℚ) :
    (buildProblem (ampModel n lo hi st) [] dd).withinBoundsFrom 0 q
      ↔ ∃ a : ℚ, q = [a] ∧ lo ≤ a ∧ a ≤ hi := by
  constructor
  · rintro ⟨hlen, hb⟩
    have h1 : q.length = 1 := by simpa [buildProblem, ampModel] using hlen
    obtain ⟨a, rfl⟩ := List.length_eq_one.1 h1
    have := hb 0 a (le_refl _) rfl
    exact ⟨a, rfl, this.1 lo (by simp [buildProblem, ampModel, List.range_succ]),
      this.2 hi (by simp [buildProblem, ampModel, List.range_succ])⟩
  · rintro ⟨a, rfl, hlo, hhi⟩
    refine ⟨by simp [buildProblem, ampModel], ?_⟩
    intro i x _ hx
    cases i with
    | zero =>
      simp only [List.getElem?_cons_zero, Option.some.injEq] at hx
      subst hx
      constructor
      · intro l hl
        simp [buildProblem, ampModel, List.range_succ] at hl
        rw [← hl]; exact hlo
      · intro u hu
        simp [buildProblem, ampModel, List.range_succ] at hu
        rw [← hu]; exact hhi
    | succ i => simp at hx

/-- With the first parameter free, the box of the constant-amplitude problem is every vector of
one entry. -/
theorem amp_withinBounds_one (n : Nat) (lo hi st : ℚ) (dd q : List ℚ) :
    (buildProblem (ampModel n lo hi st) [] dd).withinBoundsFrom 1 q ↔ ∃ a : ℚ, q = [a] := by
  constructor
  · rintro ⟨hlen, -⟩
    have h1 : q.length = 1 := by simpa [buildProblem, ampModel] using hlen
    exact List.length_eq_one.1 h1
  · rintro ⟨a, rfl⟩
    refine ⟨by simp [buildProblem, ampModel], ?_⟩
    intro i x hi hx
    obtain ⟨j, rfl⟩ : ∃ j, i = j + 1 := ⟨i - 1, by omega⟩
    simp at hx

theorem qsqrt_quarter : qsqrt (1 / 4) = 1 / 2 := by
  rw [show (1 / 4 : ℚ) = (1 / 2) * (1 / 2) by norm_num]
  exact qsqrt_mul_self _ (by norm_num)

/-- The scaled fit of the constant-amplitude model to `[0, 4]`, covariance and residuals
requested. -/
theorem scaled_fit_covariance_example :
    ScaledNLLSFitFunction.fit (exampleExternal ampSolve) ⟨ampModel 2 0 1000 1, 100⟩
        ([0, 4] :: []) [] entryStateAll =
      (FitExit.returned ⟨true, ""⟩,
        ⟨[2], some [1], 2, [[-2, 2]], 1,
          [Event.problemBuilt, Event.solve, Event.covariance]⟩) := by
  simp [ScaledNLLSFitFunction.fit, maxCoeff, exampleExternal, ampSolve, ampModel,
    entryStateAll, buildProblem, arraySub, squareSum, scaleFirst, epsilon, List.range_succ,
    GetModelCovariance, GetModelCovarianceLoop, setHeadSqrt, covOuter, covInner, divHead]
  norm_num [qsqrt_quarter]

theorem exampleExternal_covariance_nonneg
    (solve : SolverOptions ℚ → Problem ℚ → List ℚ → Summary × List ℚ) (pr : Problem ℚ)
    (q : List ℚ) (i : Nat) : 0 ≤ (exampleExternal solve).covariance pr q i i := by
  simp only [exampleExternal, if_true]
  positivity

theorem qsqrt_999 : qsqrt 998001 = 999 := by
  rw [show (998001 : ℚ) = 999 * 999 by norm_num]
  exact qsqrt_mul_self _ (by norm_num)

/-- The direct fit of the constant-amplitude model to `[2, 4]`. -/
theorem direct_fit_raw_example :
    NLLSFitFunction.fit (exampleExternal ampSolve) ⟨ampModel 2 0 1000 1, 100⟩
        ([2, 4] :: []) [] entryState =
      (FitExit.returned ⟨true, ""⟩,
        ⟨[3], none, 1, [], 1, [Event.problemBuilt, Event.solve]⟩) := by
  simp [NLLSFitFunction.fit, exampleExternal, ampSolve, ampModel, entryState,
    buildProblem, arraySub, squareSum, List.range_succ]
  norm_num [qsqrt_one]

/-- The scaled fit of the constant-amplitude model to `[2, 4]`. -/
theorem scaled_fit_raw_example :
    ScaledNLLSFitFunction.fit (exampleExternal ampSolve) ⟨ampModel 2 0 1000 1, 100⟩
        ([2, 4] :: []) [] entryState =
      (FitExit.returned ⟨true, ""⟩,
        ⟨[3], none, 1, [], 1, [Event.problemBuilt, Event.solve]⟩) := by
  simp [ScaledNLLSFitFunction.fit, maxCoeff, exampleExternal, ampSolve, ampModel, entryState,
    buildProblem, arraySub, squareSum, scaleFirst, epsilon, List.range_succ]
  norm_num [qsqrt_sixteenth]

end Evaluation

section CovarianceLemmas

variable {R : Type} [LinearOrderedField R]

/-- Triangular numbers: `(i + 1) (i + 2) / 2 = i (i + 1) / 2 + (i + 1)`. -/
theorem triangle_succ (i : Nat) : (i + 1) * (i + 1 + 1) / 2 = i * (i + 1) / 2 + (i + 1) := by
  have h : (i + 1) * (i + 1 + 1) = i * (i + 1) + 2 * (i + 1) := by ring
  rw [h]
  omega

theorem triangle_le_mul (i NV : Nat) (h : i ≤ NV) : i * (i + 1) / 2 ≤ i * NV := by
  apply Nat.div_le_of_le_mul
  have h2 : i * (i + 1) ≤ i * (2 * NV) := by
    cases i with
    | zero => simp
    | succ k => exact Nat.mul_le_mul_left _ (by omega)
  calc i * (i + 1) ≤ i * (2 * NV) := h2
    _ = 2 * (i * NV) := by ring

theorem covBody_eq (full : Nat → Nat → R) (ii jj : Nat) (s : CovLoop R) (ci cj : R)
    (hi : s.cov[ii]? = some ci) (hj : s.cov[jj]? = some cj) (hlt : s.index < s.cov.length) :
    covBody full ii s jj =
      some ⟨s.cov.set s.index (full ii jj / (ci * cj)), s.index + 1, s.writes ++ [s.index]⟩ := by
  simp [covBody, hi, hj, writeAt, hlt]

/-- The inner loop over any list `js` of column indices below `NV`: it writes the slots
`index, index + 1, ...` in this order, one per column, and changes nothing below `index`. -/
theorem covBody_foldlM (full : Nat → Nat → R) (NV ii : Nat) (h : Nat → R) (hii : ii < NV) :
    ∀ (js : List Nat) (s : CovLoop R), NV ≤ s.index → s.index + js.length ≤ s.cov.length →
      (∀ j ∈ js, j < NV) → (∀ t, t < NV → s.cov[t]? = some (h t)) →
      ∃ s1 : CovLoop R, js.foldlM (covBody full ii) s = some s1 ∧
        s1.index = s.index + js.length ∧ s1.cov.length = s.cov.length ∧
        s1.writes = s.writes ++ List.range' s.index js.length ∧
        (∀ t, t < s.index → s1.cov[t]? = s.cov[t]?) ∧
        (∀ m j, js[m]? = some j → s1.cov[s.index + m]? = some (full ii j / (h ii * h j))) := by
  intro js
  induction js with
  | nil =>
    intro s _ _ _ _
    exact ⟨s, rfl, by simp, rfl, by simp, fun _ _ => rfl, by simp⟩
  | cons j js ih =>
    intro s hNV hlen hjs hhead
    have hj : j < NV := hjs j (List.mem_cons_self _ _)
    have hlt : s.index < s.cov.length := by
      simp only [List.length_cons] at hlen
      omega
    have hbody := covBody_eq full ii j s (h ii) (h j) (hhead ii hii) (hhead j hj) hlt
    obtain ⟨s1, hfold, hidx, hlen1, hwr, hbelow, hslots⟩ :=
      ih ⟨s.cov.set s.index (full ii j / (h ii * h j)), s.index + 1, s.writes ++ [s.index]⟩
        (by show NV ≤ s.index + 1; omega)
        (by
          show s.index + 1 + js.length ≤ (s.cov.set s.index (full ii j / (h ii * h j))).length
          simp only [List.length_set, List.length_cons] at hlen ⊢
          omega)
        (fun x hx => hjs x (List.mem_cons_of_mem _ hx))
        (by
          intro t ht
          show (s.cov.set s.index (full ii j / (h ii * h j)))[t]? = some (h t)
          rw [List.getElem?_set_ne (by omega)]
          exact hhead t ht)
    simp only at hidx hlen1 hwr hbelow hslots
    refine ⟨s1, ?_, ?_, ?_, ?_, ?_, ?_⟩
    · rw [List.foldlM_cons, hbody]
      exact hfold
    · simp only [List.length_cons]; omega
    · simpa using hlen1
    · rw [hwr, List.length_cons, List.range'_succ, List.append_assoc]
      rfl
    · intro t ht
      rw [hbelow t (by omega), List.getElem?_set_ne (by omega)]
    · intro m x hm
      cases m with
      | zero =>
        simp only [List.getElem?_cons_zero, Option.some.injEq] at hm
        subst hm
        rw [Nat.add_zero, hbelow s.index (by omega), List.getElem?_set_self hlt]
      | succ m =>
        simp only [List.getElem?_cons_succ] at hm
        have := hslots m x hm
        rw [show s.index + (m + 1) = s.index + 1 + m by omega]
        exact this

theorem rowStart_zero (NV : Nat) : rowStart NV 0 = NV := by
  simp [rowStart]

theorem rowStart_succ (NV i : Nat) (h : i < NV) :
    rowStart NV (i + 1) = rowStart NV i + (NV - (i + 1)) := by
  unfold rowStart
  have h1 := triangle_succ i
  have h2 := triangle_le_mul i NV (Nat.le_of_lt h)
  have h3 : (i + 1) * NV = i * NV + NV := by ring
  rw [h1, h3]
  omega

theorem rowStart_mono (NV : Nat) : ∀ n, n ≤ NV → ∀ m, m ≤ n → rowStart NV m ≤ rowStart NV n := by
  intro n
  induction n with
  | zero =>
    intro _ m hm
    obtain rfl : m = 0 := by omega
    exact le_refl _
  | succ n ih =>
    intro hn m hm
    rcases Nat.eq_or_lt_of_le hm with rfl | hlt
    · exact le_refl _
    · have := ih (by omega) m (by omega)
      rw [rowStart_succ NV n (by omega)]
      omega

theorem rowStart_self (NV : Nat) : rowStart NV NV = NV * (NV + 1) / 2 := by
  unfold rowStart
  have h1 : NV * (NV + 1) = NV * NV + NV := by ring
  have h2 : NV * (NV + 1) % 2 = 0 := Nat.even_iff.1 (Nat.even_mul_succ_self NV)
  rw [h1] at h2 ⊢
  omega

theorem corrSlot_eq (NV i j : Nat) : corrSlot NV i j = rowStart NV i + (j - i - 1) := rfl

/-- The outer loop after its first `n` rows: the index stands at the start of row `n`, the slots
from `NV` up to it were written once each in increasing order, the first `NV` slots are
untouched, and the correlation of every pair `i < j` with `i < n` is in its reference slot. -/
theorem covInner_foldlM (full : Nat → Nat → R) (NV : Nat) (h : Nat → R) (s : CovLoop R)
    (hidx : s.index = NV) (hlen : s.cov.length = NV * (NV + 1) / 2) (hwr : s.writes = [])
    (hhead : ∀ t, t < NV → s.cov[t]? = some (h t)) :
    ∀ n, n ≤ NV →
      ∃ s1 : CovLoop R, (List.range n).foldlM (covInner full NV) s = some s1 ∧
        s1.index = rowStart NV n ∧ s1.cov.length = s.cov.length ∧
        s1.writes = List.range' NV (rowStart NV n - NV) ∧
        (∀ t, t < NV → s1.cov[t]? = some (h t)) ∧
        (∀ i j, i < n → i < j → j < NV →
          s1.cov[corrSlot NV i j]? = some (full i j / (h i * h j))) := by
  intro n
  induction n with
  | zero =>
    intro _
    refine ⟨s, rfl, by rw [hidx, rowStart_zero], rfl, by simp [hwr, rowStart_zero], hhead, ?_⟩
    intro i j hi
    omega
  | succ n ih =>
    intro hn
    obtain ⟨s1, hfold, hidx1, hlen1, hwr1, hhead1, hslots1⟩ := ih (by omega)
    have hge : NV ≤ rowStart NV n := by
      have := rowStart_mono NV n (by omega) 0 (Nat.zero_le _)
      rwa [rowStart_zero] at this
    have hnext := rowStart_succ NV n (by omega)
    have htop : rowStart NV (n + 1) ≤ NV * (NV + 1) / 2 := by
      rw [← rowStart_self]
      exact rowStart_mono NV NV (le_refl _) (n + 1) hn
    obtain ⟨s2, hfold2, hidx2, hlen2, hwr2, hbelow2, hslots2⟩ :=
      covBody_foldlM full NV n h (by omega) (List.range' (n + 1) (NV - (n + 1))) s1
        (by rw [hidx1]; exact hge)
        (by rw [hidx1, hlen1, hlen, List.length_range']; omega)
        (by
          intro j hj
          rw [List.mem_range'_1] at hj
          omega)
        hhead1
    rw [List.length_range'] at hidx2 hwr2
    refine ⟨s2, ?_, ?_, ?_, ?_, ?_, ?_⟩
    · rw [List.range_succ, List.foldlM_append, hfold]
      simp only [Option.some_bind, List.foldlM_cons, List.foldlM_nil, Option.bind_eq_bind]
      have : covInner full NV s1 n = some s2 := hfold2
      rw [this]
      rfl
    · rw [hidx2, hidx1, hnext]
    · rw [hlen2, hlen1]
    · rw [hwr2, hwr1, hidx1, hnext]
      have h1 : rowStart NV n = NV + (rowStart NV n - NV) := by omega
      rw [show List.range' (rowStart NV n) (NV - (n + 1))
          = List.range' (NV + (rowStart NV n - NV)) (NV - (n + 1)) by rw [← h1],
        List.range'_append_1]
      congr 1
      omega
    · intro t ht
      rw [hbelow2 t (by omega), hhead1 t ht]
    · intro i j hi hij hj
      rcases Nat.lt_succ_iff_lt_or_eq.1 hi with hlt | rfl
      · have hpos : corrSlot NV i j < s1.index := by
          rw [corrSlot_eq, hidx1]
          have h1 := rowStart_succ NV i (by omega)
          have h2 := rowStart_mono NV n (by omega) (i + 1) (by omega)
          omega
        rw [hbelow2 _ hpos]
        exact hslots1 i j hlt hij hj
      · rw [corrSlot_eq, ← hidx1]
        apply hslots2 (j - i - 1) j
        rw [List.getElem?_range' _ _ (by omega)]
        congr 1
        omega

theorem le_NCov (NV : Nat) : NV ≤ NV * (NV + 1) / 2 := by
  have := rowStart_mono NV NV (le_refl _) 0 (Nat.zero_le _)
  rwa [rowStart_zero, rowStart_self] at this

/-- The whole extractor on a buffer of `NV * (NV + 1) / 2` slots and a parameter vector of `NV`
entries: it runs to the end, and its final state is described slot by slot. -/
theorem GetModelCovarianceLoop_spec (sqrt : R → R) (NV : Nat) (block : Nat → Nat → R)
    (v : List R) (scale : R) (cov : List R) (hlen : cov.length = NV * (NV + 1) / 2)
    (hv : v.length = NV) :
    ∃ s : CovLoop R, GetModelCovarianceLoop sqrt NV block v scale cov = some s ∧
      s.index = NV * (NV + 1) / 2 ∧ s.cov.length = NV * (NV + 1) / 2 ∧
      s.writes = List.range' NV (NV * (NV + 1) / 2 - NV) ∧
      (∀ i vi, v[i]? = some vi → s.cov[i]? = some (sqrt (block i i * scale) / vi)) ∧
      (∀ i j, i < j → j < NV →
        s.cov[corrSlot NV i j]? = some (block i j * scale /
          (sqrt (block i i * scale) * sqrt (block j j * scale)))) := by
  have hle := le_NCov NV
  have hhead : NV ≤ cov.length := by rw [hlen]; exact hle
  obtain ⟨s1, hfold, hidx1, hlen1, hwr1, hhead1, hslots1⟩ :=
    covInner_foldlM (fun i j => block i j * scale) NV (fun i => sqrt (block i i * scale))
      ⟨(List.range NV).map (fun i => sqrt (block i i * scale)) ++ cov.drop NV, NV, []⟩
      rfl (by simp; omega) rfl
      (by
        intro t ht
        show ((List.range NV).map (fun i => sqrt (block i i * scale)) ++ cov.drop NV)[t]? = _
        rw [List.getElem?_append_left (by simpa using ht), List.getElem?_map,
          List.getElem?_range ht]
        rfl)
      NV (le_refl _)
  have hlen1b : s1.cov.length = NV * (NV + 1) / 2 := by
    rw [hlen1]
    simp
    omega
  have hfold1 : covOuter (fun i j => block i j * scale) NV
      ⟨(List.range NV).map (fun i => sqrt (block i i * scale)) ++ cov.drop NV, NV, []⟩
      = some s1 := hfold
  have hzip : (List.zipWith (fun c x => c / x) (s1.cov.take NV) v).length = NV := by
    simp [hv, hlen1b, hle]
  refine ⟨⟨List.zipWith (fun c x => c / x) (s1.cov.take NV) v ++ s1.cov.drop NV, s1.index,
    s1.writes⟩, ?_, ?_, ?_, ?_, ?_, ?_⟩
  · simp only [GetModelCovarianceLoop, setHeadSqrt, hhead, if_true, hfold1, divHead, hlen1b, hle,
      hv, and_self]
  · rw [hidx1, rowStart_self]
  · simp only [List.length_append, hzip, List.length_drop, hlen1b]
    omega
  · rw [hwr1, rowStart_self]
  · intro i vi hvi
    have hi : i < NV := by
      rw [← hv]
      exact (List.getElem?_eq_some_iff.1 hvi).1
    show (List.zipWith (fun c x => c / x) (s1.cov.take NV) v ++ s1.cov.drop NV)[i]? = _
    rw [List.getElem?_append_left (by rw [hzip]; exact hi), List.getElem?_zipWith,
      List.getElem?_take_of_lt hi, hhead1 i hi, hvi]
  · intro i j hij hj
    have hslot : NV ≤ corrSlot NV i j := by
      rw [corrSlot_eq]
      have := rowStart_mono NV i (by omega) 0 (Nat.zero_le _)
      rw [rowStart_zero] at this
      omega
    show (List.zipWith (fun c x => c / x) (s1.cov.take NV) v ++ s1.cov.drop NV)[corrSlot NV i j]?
      = _
    rw [List.getElem?_append_right (by rw [hzip]; exact hslot), hzip, List.getElem?_drop,
      show NV + (corrSlot NV i j - NV) = corrSlot NV i j by omega]
    exact hslots1 i j (by omega) hij hj

/-- The extractor only runs to the end on a parameter vector of `NV` entries. -/
theorem GetModelCovariance_some_length (sqrt : R → R) (NV : Nat) (block : Nat → Nat → R)
    (v : List R) (scale : R) (cov out : List R)
    (h : GetModelCovariance sqrt NV block v scale cov = some out) : v.length = NV := by
  simp only [GetModelCovariance, GetModelCovarianceLoop] at h
  split at h
  · simp at h
  · split at h
    · simp at h
    · split at h
      · simp at h
      · rename_i cov2 hdiv
        unfold divHead at hdiv
        split at hdiv
        · rename_i hcond
          exact hcond.2
        · simp at hdiv

/-- The first `NV` slots after a run of the extractor on a buffer of `NV * (NV + 1) / 2`
slots. -/
theorem GetModelCovariance_head (sqrt : R → R) (NV : Nat) (block : Nat → Nat → R)
    (v : List R) (scale : R) (cov out : List R) (hlen : cov.length = NV * (NV + 1) / 2)
    (h : GetModelCovariance sqrt NV block v scale cov = some out) :
    ∀ (i : Nat) (vi : R), v[i]? = some vi →
      out[i]? = some (sqrt (block i i * scale) / vi) := by
  have hv := GetModelCovariance_some_length sqrt NV block v scale cov out h
  obtain ⟨s, hs, -, -, -, hse, -⟩ := GetModelCovarianceLoop_spec sqrt NV block v scale cov hlen hv
  simp only [GetModelCovariance, hs, Option.map_some', Option.some.injEq] at h
  rw [← h]
  exact hse

end CovarianceLemmas

section CovarianceTheorems

variable {R : Type} [LinearOrderedField R]

/-- C5: on a buffer of `NV * (NV + 1) / 2` slots and a fitted vector `v` of `NV` entries,
`GetModelCovariance` equals the reference of the specification.  With `C` the covariance matrix
of the solver, `k` the scale factor and `sd_i = sqrt (k * C[i][i])`: slot `i < NV` holds
`sd_i / v[i]`, and for `i < j < NV` slot `NV + i * NV - i * (i + 1) / 2 + (j - i - 1)` holds
`k * C[i][j] / (sd_i * sd_j)`, the standard deviations being those before the division by the
parameter values. -/
theorem GetModelCovariance_eq_reference (sqrt : R → R) (NV : Nat) (C : Nat → Nat → R)
    (v : List R) (k : R) (cov : List R) (hlen : cov.length = NV * (NV + 1) / 2)
    (hv : v.length = NV) :
    ∃ out : List R, GetModelCovariance sqrt NV C v k cov = some out ∧
      out.length = NV * (NV + 1) / 2 ∧
      (∀ i vi, v[i]? = some vi → out[i]? = some (sdRef sqrt C k i / vi)) ∧
      (∀ i j, i < j → j < NV →
        out[corrSlot NV i j]? = some (k * C i j / (sdRef sqrt C k i * sdRef sqrt C k j))) := by
  obtain ⟨s, hs, -, hlen1, -, hse, hcorr⟩ :=
    GetModelCovarianceLoop_spec sqrt NV C v k cov hlen hv
  refine ⟨s.cov, by simp [GetModelCovariance, hs], hlen1, ?_, ?_⟩
  · intro i vi hvi
    rw [hse i vi hvi, sdRef, mul_comm]
  · intro i j hij hj
    rw [hcorr i j hij hj, sdRef, sdRef, mul_comm (C i j), mul_comm (C i i), mul_comm (C j j)]

/-- Witness of C5: three parameters, the covariance matrix with entries `C[i][j] = i + j + 1`. -/
theorem GetModelCovariance_eq_reference_witness :
    ∃ out : List ℚ,
      GetModelCovariance qsqrt 3 (fun i j => (i : ℚ) + j + 1) [2, 5, 7] 4 [0, 0, 0, 0, 0, 0]
        = some out ∧
      out.length = 3 * (3 + 1) / 2 ∧
      (∀ i vi, ([2, 5, 7] : List ℚ)[i]? = some vi →
        out[i]? = some (sdRef qsqrt (fun i j => (i : ℚ) + j + 1) 4 i / vi)) ∧
      (∀ i j, i < j → j < 3 →
        out[corrSlot 3 i j]? = some (4 * ((i : ℚ) + j + 1) /
          (sdRef qsqrt (fun i j => (i : ℚ) + j + 1) 4 i
            * sdRef qsqrt (fun i j => (i : ℚ) + j + 1) 4 j))) :=
  GetModelCovariance_eq_reference qsqrt 3 (fun i j => (i : ℚ) + j + 1) [2, 5, 7] 4
    [0, 0, 0, 0, 0, 0] rfl rfl

end CovarianceTheorems

section LeastSquaresLemmas

variable {R : Type} [LinearOrderedField R]

/-- Sum of squares of the residuals of `d` against a signal multiplied by `t`, in terms of the
residuals of `d / t` against the signal. -/
theorem squareSum_sub_scaled (t : R) (ht : t ≠ 0) :
    ∀ (d sig : List R),
      squareSum (List.zipWith (fun x y => x - y) d (sig.map (fun y => y * t)))
        = t * t * squareSum (List.zipWith (fun x y => x - y) (d.map (fun x => x / t)) sig) := by
  intro d
  induction d with
  | nil => intro sig; simp [squareSum]
  | cons x xs ih =>
    intro sig
    cases sig with
    | nil => simp [squareSum]
    | cons y ys =>
      have h := ih ys
      simp only [squareSum, List.map_cons, List.zipWith_cons_cons, List.sum_cons] at h ⊢
      rw [h]
      field_simp
      ring

/-- The objectives of the direct and of the normalised problem, related through a signal that
is homogeneous of degree one in its first parameter. -/
theorem objective_scaled (model : Model R) (fixed d : List R) (t : R) (ht : t ≠ 0)
    (hhom : ∀ (a : R) (r : List R),
      model.signal (a * t :: r) fixed = (model.signal (a :: r) fixed).map (fun y => y * t))
    (a : R) (r : List R) :
    (buildProblem model fixed d).objective (a * t :: r)
      = ((buildProblem model fixed (d.map (fun x => x / t))).objective (a :: r)).map
          (fun c => t * t * c) := by
  simp only [Problem.objective, ModelCost.call, buildProblem, arraySub, hhom, List.length_map]
  by_cases hlen : d.length = (model.signal (a :: r) fixed).length
  · simp only [hlen, if_true, Option.map_some', squareSum_sub_scaled t ht]
  · simp only [hlen, if_false, Option.map_none']

end LeastSquaresLemmas

section FitTheorems

variable {R : Type} [LinearOrderedField R]

/-- C1 (amended): whenever the greatest value `scale` of the first channel is strictly below
machine epsilon (an all-zero and an all-negative channel included), the scaled fit returns
`success = false` with the message "Maximum data value was not positive", writes zero to every
fitted parameter and to the RMSE, leaves every other output as it was, and makes no call into the
solver: the event log is the one on entry and the result does not depend on the solver. -/
theorem scaled_fit_short_circuit (ext : External R) (f : ScaledNLLSFitFunction R)
    (input0 : List R) (rest : List (List R)) (fixed : List R) (st : FitState R) (scale : R)
    (hmem : scale ∈ input0) (hub : ∀ x ∈ input0, x ≤ scale) (hlt : scale < epsilon) :
    f.fit ext (input0 :: rest) fixed st =
      (FitExit.returned ⟨false, "Maximum data value was not positive"⟩,
        { st with p := List.replicate f.model.NV 0, rmse := 0 }) := by
  have hmax : maxCoeff input0 = some scale := (maxCoeff_eq_some_iff input0 scale).2 ⟨hmem, hub⟩
  simp [ScaledNLLSFitFunction.fit, hmax, hlt]

/-- Witness of C1 (amended) on an all-zero and on an all-negative channel. -/
theorem scaled_fit_short_circuit_witness :
    ScaledNLLSFitFunction.fit (exampleExternal ampSolve) ⟨ampModel 2 0 1000 1, 100⟩
        [[0, 0]] [] entryState =
      (FitExit.returned ⟨false, "Maximum data value was not positive"⟩,
        { entryState with p := List.replicate 1 0, rmse := 0 }) ∧
    ScaledNLLSFitFunction.fit (exampleExternal ampSolve) ⟨ampModel 2 0 1000 1, 100⟩
        [[-3, -1]] [] entryState =
      (FitExit.returned ⟨false, "Maximum data value was not positive"⟩,
        { entryState with p := List.replicate 1 0, rmse := 0 }) :=
  ⟨scaled_fit_short_circuit (exampleExternal ampSolve) ⟨ampModel 2 0 1000 1, 100⟩ [0, 0] [] []
      entryState 0 (by simp) (by simp) epsilon_pos,
   scaled_fit_short_circuit (exampleExternal ampSolve) ⟨ampModel 2 0 1000 1, 100⟩ [-3, -1] [] []
      entryState (-1) (by simp) (by simp) (lt_trans (by norm_num) epsilon_pos)⟩

/-- C1 (counterexample): a channel whose greatest value is exactly machine epsilon is not
short-circuited.  The guard is `scale < epsilon`, so the problem is built, the solver is called
and, with a solver that reports a usable solution, `fit` returns `success = true` with the
non-zero parameter `epsilon`. -/
theorem scaled_fit_at_epsilon_solves :
    maxCoeff [(epsilon : ℚ)] = some epsilon ∧ (epsilon : ℚ) ≤ epsilon ∧
    ScaledNLLSFitFunction.fit (exampleExternal ampSolve) ⟨ampModel 1 0 1000 1, 100⟩
        [[epsilon]] [] entryState =
      (FitExit.returned ⟨true, ""⟩,
        ⟨[epsilon], none, 0, [], 1, [Event.problemBuilt, Event.solve]⟩) ∧
    (epsilon : ℚ) ≠ 0 := by
  refine ⟨rfl, le_refl _, ?_, ne_of_gt epsilon_pos⟩
  simp [ScaledNLLSFitFunction.fit, maxCoeff, exampleExternal, ampSolve, ampModel, entryState,
    buildProblem, arraySub, squareSum, scaleFirst, qsqrt_zero, epsilon, List.range_succ]

/-- Inversion of a successful direct fit: the solver reported a usable solution, the residual
array of the fitted parameters exists, and every output is the value computed from them. -/
theorem direct_fit_success_inv (ext : External R) (f : NLLSFitFunction R)
    (data : List R) (rest : List (List R)) (fixed : List R) (st out : FitState R) (msg : String)
    (hfit : f.fit ext (data :: rest) fixed st = (FitExit.returned ⟨true, msg⟩, out)) :
    ∃ (solved : Summary × List R) (rs : List R),
      solved = ext.Solve (solverOptions f.max_iterations) (buildProblem f.model fixed data)
        f.model.start ∧
      solved.1.isSolutionUsable = true ∧ msg = "" ∧
      arraySub data (f.model.signal solved.2 fixed) = some rs ∧
      out.p = solved.2 ∧
      out.rmse = ext.sqrt (squareSum rs / (data.length : R)) ∧
      out.residuals = (if st.residuals.length > 0 then st.residuals.set 0 rs else st.residuals) ∧
      out.iterations = (solved.1.iterations_size : Int) ∧
      out.cov = st.cov.bind (fun cov =>
        GetModelCovariance ext.sqrt f.model.NV
          (ext.covariance (buildProblem f.model fixed data) solved.2) solved.2
          (squareSum rs / (((data.length : Int) - (f.model.NV : Int) : Int) : R)) cov) ∧
      (st.cov.isSome → out.cov.isSome) ∧
      out.events = st.events ++ [Event.problemBuilt] ++ [Event.solve] ++
        (if st.cov.isSome then [Event.covariance] else []) := by
  simp only [NLLSFitFunction.fit] at hfit
  generalize hs : ext.Solve (solverOptions f.max_iterations)
    (buildProblem f.model fixed data) f.model.start = solved at hfit
  refine ⟨solved, ?_⟩
  split at hfit
  · simp at hfit
  · rename_i husable
    split at hfit
    · simp at hfit
    · rename_i rs hrs
      refine ⟨rs, rfl, by simpa using husable, ?_⟩
      split at hfit
      · rename_i hcov
        simp only [Prod.mk.injEq, FitExit.returned.injEq, FitReturnType.mk.injEq, true_and]
          at hfit
        obtain ⟨hmsg, rfl⟩ := hfit
        simp [hmsg.symm, hrs, hcov]
      · rename_i cov hcov
        split at hfit
        · simp at hfit
        · rename_i cov1 hcov1
          simp only [Prod.mk.injEq, FitExit.returned.injEq, FitReturnType.mk.injEq, true_and]
            at hfit
          obtain ⟨hmsg, rfl⟩ := hfit
          simp only [hcov, Option.some_bind, hcov1]
          simp [hmsg.symm, hrs]

/-- Inversion of a successful scaled fit: the scale is not below epsilon, the solver reported a
usable solution on the normalised data, and every output is the value computed from them. -/
theorem scaled_fit_success_inv (ext : External R) (f : ScaledNLLSFitFunction R)
    (input0 : List R) (rest : List (List R)) (fixed : List R) (st out : FitState R) (scale : R)
    (msg : String) (hmax : maxCoeff input0 = some scale)
    (hfit : f.fit ext (input0 :: rest) fixed st = (FitExit.returned ⟨true, msg⟩, out)) :
    ∃ (solved : Summary × List R) (rs p1 : List R),
      solved = ext.Solve (solverOptions f.max_iterations)
        (buildProblem f.model fixed (input0.map (fun x => x / scale))) f.model.start ∧
      ¬ scale < epsilon ∧
      solved.1.isSolutionUsable = true ∧ msg = "" ∧
      arraySub (input0.map (fun x => x / scale)) (f.model.signal solved.2 fixed) = some rs ∧
      scaleFirst solved.2 scale = some p1 ∧
      out.p = p1 ∧
      out.rmse = ext.sqrt (squareSum rs / ((input0.map (fun x => x / scale)).length : R))
        * scale ∧
      out.residuals = (if st.residuals.length > 0 then
        st.residuals.set 0 (rs.map (fun x => x * scale)) else st.residuals) ∧
      out.iterations = (solved.1.iterations_size : Int) ∧
      out.cov = st.cov.bind (fun cov =>
        GetModelCovariance ext.sqrt f.model.NV
          (ext.covariance (buildProblem f.model fixed (input0.map (fun x => x / scale)))
            solved.2) solved.2
          (squareSum rs / ((((input0.map (fun x => x / scale)).length : Int)
            - (f.model.NV : Int) : Int) : R)) cov) ∧
      (st.cov.isSome → out.cov.isSome) ∧
      out.events = st.events ++ [Event.problemBuilt] ++ [Event.solve] ++
        (if st.cov.isSome then [Event.covariance] else []) := by
  simp only [ScaledNLLSFitFunction.fit, hmax] at hfit
  generalize hs : ext.Solve (solverOptions f.max_iterations)
    (buildProblem f.model fixed (input0.map (fun x => x / scale))) f.model.start = solved at hfit
  refine ⟨solved, ?_⟩
  split at hfit
  · simp at hfit
  · rename_i hscale
    split at hfit
    · simp at hfit
    · rename_i husable
      split at hfit
      · simp at hfit
      · rename_i rs hrs
        split at hfit
        · rename_i hcov
          split at hfit
          · simp at hfit
          · rename_i p1 hp1
            refine ⟨rs, p1, rfl, hscale, by simpa using husable, ?_⟩
            simp only [Prod.mk.injEq, FitExit.returned.injEq, FitReturnType.mk.injEq, true_and]
              at hfit
            obtain ⟨hmsg, rfl⟩ := hfit
            simp [hmsg.symm, hrs, hcov, hp1]
        · rename_i cov hcov
          split at hfit
          · simp at hfit
          · rename_i cov1 hcov1
            split at hfit
            · simp at hfit
            · rename_i p1 hp1
              refine ⟨rs, p1, rfl, hscale, by simpa using husable, ?_⟩
              simp only [Prod.mk.injEq, FitExit.returned.injEq, FitReturnType.mk.injEq, true_and]
                at hfit
              obtain ⟨hmsg, rfl⟩ := hfit
              simp only [hcov, Option.some_bind, hcov1]
              simp [hmsg.symm, hrs, hp1]

/-- C2: on every successful scaled fit, with `scale` the greatest value of the first channel and
`q` the parameter vector the solver produced on the normalised data `inputs[0] / scale`, the
returned vector is `q` with only its first entry multiplied by `scale`: `p[0] = q[0] * scale` and
`p[i] = q[i]` for every `i ≥ 1`. -/
theorem scaled_fit_rescales_first_only (ext : External R) (f : ScaledNLLSFitFunction R)
    (input0 : List R) (rest : List (List R)) (fixed : List R) (st out : FitState R) (scale : R)
    (msg : String) (hmax : maxCoeff input0 = some scale)
    (hfit : f.fit ext (input0 :: rest) fixed st = (FitExit.returned ⟨true, msg⟩, out)) :
    ∃ q0 : R,
      (ext.Solve (solverOptions f.max_iterations)
          (buildProblem f.model fixed (input0.map (fun x => x / scale))) f.model.start).2[0]?
        = some q0 ∧
      out.p[0]? = some (q0 * scale) ∧
      out.p.length =
        (ext.Solve (solverOptions f.max_iterations)
          (buildProblem f.model fixed (input0.map (fun x => x / scale))) f.model.start).2.length ∧
      ∀ i : Nat, 1 ≤ i →
        out.p[i]? =
          (ext.Solve (solverOptions f.max_iterations)
            (buildProblem f.model fixed (input0.map (fun x => x / scale))) f.model.start).2[i]? := by
  obtain ⟨solved, rs, p1, hsolved, -, -, -, -, hp1, hp, -⟩ :=
    scaled_fit_success_inv ext f input0 rest fixed st out scale msg hmax hfit
  rw [← hsolved, hp]
  cases hq : solved.2 with
  | nil => simp [hq, scaleFirst] at hp1
  | cons q0 qs =>
    simp only [hq, scaleFirst, Option.some.injEq] at hp1
    subst hp1
    refine ⟨q0, by simp, by simp, by simp, ?_⟩
    intro i hi
    obtain ⟨j, rfl⟩ : ∃ j, i = j + 1 := ⟨i - 1, by omega⟩
    simp

/-- Witness of C2: the constant-amplitude model on the data `[2, 4]`, whose scale is `4`. -/
theorem scaled_fit_rescales_first_only_witness :
    ∃ q0 : ℚ,
      ((exampleExternal ampSolve).Solve (solverOptions 100)
          (buildProblem (ampModel 2 0 1000 1) [] ([2, 4].map (fun x => x / 4))) [1]).2[0]?
        = some q0 ∧
      ([3] : List ℚ)[0]? = some (q0 * 4) ∧
      ([3] : List ℚ).length =
        ((exampleExternal ampSolve).Solve (solverOptions 100)
          (buildProblem (ampModel 2 0 1000 1) [] ([2, 4].map (fun x => x / 4))) [1]).2.length ∧
      ∀ i : Nat, 1 ≤ i →
        ([3] : List ℚ)[i]? =
          ((exampleExternal ampSolve).Solve (solverOptions 100)
            (buildProblem (ampModel 2 0 1000 1) [] ([2, 4].map (fun x => x / 4))) [1]).2[i]? :=
  scaled_fit_rescales_first_only (exampleExternal ampSolve) ⟨ampModel 2 0 1000 1, 100⟩ [2, 4] [] []
    entryState ⟨[3], none, 1, [], 1, [Event.problemBuilt, Event.solve]⟩ 4 ""
    (by simp [maxCoeff]; norm_num)
    (by
      have hsqrt : qsqrt (1 / 16) = 1 / 4 := by
        rw [show (1 / 16 : ℚ) = (1 / 4) * (1 / 4) by norm_num]
        exact qsqrt_mul_self _ (by norm_num)
      simp [ScaledNLLSFitFunction.fit, maxCoeff, exampleExternal, ampSolve, ampModel, entryState,
        buildProblem, arraySub, squareSum, scaleFirst, epsilon, List.range_succ]
      norm_num [hsqrt])

/-- C3: for data `d` whose greatest value `s` is not below machine epsilon (in particular above
it), the same model, fixed parameters, iteration cap and solver: if the direct fit succeeds on
the normalised data `d / s`, then the scaled fit on `d` succeeds, its RMSE is the RMSE of the
direct fit times `s`, and its residual output `residuals[0]` is the residual output of the direct
fit multiplied by `s` element by element.  The fitted vector has a first entry (`NV ≥ 1`). -/
theorem scaled_fit_scales_normalised_rmse (ext : External R) (model : Model R) (maxit : Int)
    (d : List R) (rest restn : List (List R)) (fixed : List R) (st outn : FitState R) (s : R)
    (msg : String) (hmax : maxCoeff d = some s) (hs : epsilon ≤ s) (hNV : outn.p ≠ [])
    (hdirect : NLLSFitFunction.fit ext ⟨model, maxit⟩ (d.map (fun x => x / s) :: restn) fixed st
      = (FitExit.returned ⟨true, msg⟩, outn)) :
    ∃ outs : FitState R,
      ScaledNLLSFitFunction.fit ext ⟨model, maxit⟩ (d :: rest) fixed st
        = (FitExit.returned ⟨true, ""⟩, outs) ∧
      outs.rmse = outn.rmse * s ∧
      outs.residuals.length = outn.residuals.length ∧
      outs.residuals[0]? = outn.residuals[0]?.map (fun r => r.map (fun x => x * s)) ∧
      (st.residuals ≠ [] → outn.residuals[0]? ≠ none) := by
  obtain ⟨solved, rs, hsolved, husable, -, hrs, hp, hrmse, hres, -, hcov, hsome, -⟩ :=
    direct_fit_success_inv ext ⟨model, maxit⟩ _ restn fixed st outn msg hdirect
  simp only at hsolved husable hrs hcov
  have hlt : ¬ s < epsilon := not_lt.2 hs
  obtain ⟨q0, qs, hq⟩ : ∃ q0 qs, solved.2 = q0 :: qs := by
    cases hq : solved.2 with
    | nil => exact absurd (hp.trans hq) hNV
    | cons q0 qs => exact ⟨q0, qs, rfl⟩
  simp only [ScaledNLLSFitFunction.fit, hmax, hlt, if_false, ← hsolved, husable,
    Bool.not_true, hrs, Bool.false_eq_true]
  cases hc : st.cov with
  | none =>
    simp only [hq, scaleFirst]
    refine ⟨_, rfl, ?_, ?_, ?_, ?_⟩
    · simp [hrmse]
    · rw [hres]; split <;> simp
    · rw [hres]; split
      · rename_i hpos
        simp [List.getElem?_set_self hpos]
      · rename_i hpos
        have : st.residuals = [] := List.length_eq_zero.1 (by omega)
        simp [this]
    · intro hne
      have hpos : 0 < st.residuals.length := List.length_pos.2 hne
      rw [hres, if_pos hpos]
      simp [List.getElem?_set_self hpos]
  | some c =>
    have hc1 : outn.cov.isSome := hsome (by simp [hc])
    obtain ⟨c1, hc1⟩ := Option.isSome_iff_exists.1 hc1
    rw [hc, Option.some_bind, hc1, hq] at hcov
    simp only [hq, ← hcov, scaleFirst]
    refine ⟨_, rfl, ?_, ?_, ?_, ?_⟩
    · simp [hrmse]
    · rw [hres]; split <;> simp
    · rw [hres]; split
      · rename_i hpos
        simp [List.getElem?_set_self hpos]
      · rename_i hpos
        have : st.residuals = [] := List.length_eq_zero.1 (by omega)
        simp [this]
    · intro hne
      have hpos : 0 < st.residuals.length := List.length_pos.2 hne
      rw [hres, if_pos hpos]
      simp [List.getElem?_set_self hpos]

/-- Witness of C3: the constant-amplitude model on `d = [2, 4]`, `s = 4`, residuals requested. -/
theorem scaled_fit_scales_normalised_rmse_witness :
    ∃ outs : FitState ℚ,
      ScaledNLLSFitFunction.fit (exampleExternal ampSolve) ⟨ampModel 2 0 1000 1, 100⟩
          ([2, 4] :: []) [] entryStateResiduals
        = (FitExit.returned ⟨true, ""⟩, outs) ∧
      outs.rmse = (1 / 4 : ℚ) * 4 ∧
      outs.residuals.length = [[(-1 / 4 : ℚ), 1 / 4]].length ∧
      outs.residuals[0]? =
        [[(-1 / 4 : ℚ), 1 / 4]][0]?.map (fun r => r.map (fun x => x * 4)) ∧
      (entryStateResiduals.residuals ≠ [] → [[(-1 / 4 : ℚ), 1 / 4]][0]? ≠ none) :=
  scaled_fit_scales_normalised_rmse (exampleExternal ampSolve) (ampModel 2 0 1000 1) 100 [2, 4] [] []
    [] entryStateResiduals
    ⟨[3 / 4], none, 1 / 4, [[-1 / 4, 1 / 4]], 1, [Event.problemBuilt, Event.solve]⟩ 4 ""
    (by simp [maxCoeff]; norm_num)
    (by unfold epsilon; norm_num)
    (by simp)
    direct_fit_normalised_example

/-- C4: on every successful direct fit on data of length `n`, with `p_fit` the returned
parameters, the signal has `n` entries, the reported RMSE is
`sqrt (Σ_k (data[k] - signal(p_fit, fixed)[k])^2 / n)`, and when a residual output is requested
`residuals[0]` is `data - signal(p_fit, fixed)` entry by entry and has length `n`. -/
theorem direct_fit_rmse_and_residuals (ext : External R) (f : NLLSFitFunction R)
    (data : List R) (rest : List (List R)) (fixed : List R) (st out : FitState R) (msg : String)
    (hfit : f.fit ext (data :: rest) fixed st = (FitExit.returned ⟨true, msg⟩, out)) :
    (f.model.signal out.p fixed).length = data.length ∧
    out.rmse = ext.sqrt
      ((List.zipWith (fun x y => (x - y) ^ 2) data (f.model.signal out.p fixed)).sum
        / (data.length : R)) ∧
    (st.residuals ≠ [] →
      ∃ r : List R, out.residuals[0]? = some r ∧ r.length = data.length ∧
        ∀ (k : Nat) (x y : R), data[k]? = some x → (f.model.signal out.p fixed)[k]? = some y →
          r[k]? = some (x - y)) := by
  obtain ⟨solved, rs, -, -, -, hrs, hp, hrmse, hres, -⟩ :=
    direct_fit_success_inv ext f data rest fixed st out msg hfit
  rw [hp]
  unfold arraySub at hrs
  split at hrs
  · rename_i hlen
    simp only [Option.some.injEq] at hrs
    subst hrs
    refine ⟨hlen.symm, ?_, ?_⟩
    · rw [hrmse]
      simp only [squareSum, List.map_zipWith, pow_two]
    · intro hne
      have hpos : 0 < st.residuals.length := List.length_pos.2 hne
      refine ⟨List.zipWith (fun x y => x - y) data (f.model.signal solved.2 fixed), ?_, ?_, ?_⟩
      · rw [hres, if_pos hpos, List.getElem?_set_self hpos]
      · simp [hlen]
      · intro k x y hx hy
        simp [List.getElem?_zipWith, hx, hy]
  · simp at hrs

/-- Witness of C4: the constant-amplitude model fitted directly to `[1/2, 1]`. -/
theorem direct_fit_rmse_and_residuals_witness :
    ((ampModel 2 0 1000 1).signal [3 / 4] []).length = ([2, 4].map (fun x : ℚ => x / 4)).length ∧
    (1 / 4 : ℚ) = (exampleExternal ampSolve).sqrt
      ((List.zipWith (fun x y => (x - y) ^ 2) ([2, 4].map (fun x : ℚ => x / 4))
          ((ampModel 2 0 1000 1).signal [3 / 4] [])).sum
        / (([2, 4].map (fun x : ℚ => x / 4)).length : ℚ)) ∧
    (entryStateResiduals.residuals ≠ [] →
      ∃ r : List ℚ, [[(-1 / 4 : ℚ), 1 / 4]][0]? = some r ∧
        r.length = ([2, 4].map (fun x : ℚ => x / 4)).length ∧
        ∀ (k : Nat) (x y : ℚ), ([2, 4].map (fun x : ℚ => x / 4))[k]? = some x →
          ((ampModel 2 0 1000 1).signal [3 / 4] [])[k]? = some y → r[k]? = some (x - y)) :=
  direct_fit_rmse_and_residuals (exampleExternal ampSolve) ⟨ampModel 2 0 1000 1, 100⟩
    ([2, 4].map (fun x => x / 4)) [] [] entryStateResiduals
    ⟨[3 / 4], none, 1 / 4, [[-1 / 4, 1 / 4]], 1, [Event.problemBuilt, Event.solve]⟩ ""
    direct_fit_normalised_example

/-- C7: when the solver reports that its solution is not usable, the direct fit, and the scaled
fit (which reaches the solver when the scale is not below epsilon), return `success = false`
with the solver's full report as message, and the RMSE, residual, covariance and iteration
outputs hold the values they had on entry.  The parameter block, which is not one of them, is
left as the solver left it. -/
theorem fit_unusable_solution_frame (ext : External R) (model : Model R) (maxit : Int)
    (input0 : List R) (rest : List (List R)) (fixed : List R) (st : FitState R) :
    ((ext.Solve (solverOptions maxit) (buildProblem model fixed input0)
          model.start).1.isSolutionUsable = false →
      (NLLSFitFunction.fit ext ⟨model, maxit⟩ (input0 :: rest) fixed st).1 =
          FitExit.returned ⟨false, (ext.Solve (solverOptions maxit)
            (buildProblem model fixed input0) model.start).1.fullReport⟩ ∧
        (NLLSFitFunction.fit ext ⟨model, maxit⟩ (input0 :: rest) fixed st).2.rmse = st.rmse ∧
        (NLLSFitFunction.fit ext ⟨model, maxit⟩ (input0 :: rest) fixed st).2.residuals
          = st.residuals ∧
        (NLLSFitFunction.fit ext ⟨model, maxit⟩ (input0 :: rest) fixed st).2.cov = st.cov ∧
        (NLLSFitFunction.fit ext ⟨model, maxit⟩ (input0 :: rest) fixed st).2.iterations
          = st.iterations ∧
        (NLLSFitFunction.fit ext ⟨model, maxit⟩ (input0 :: rest) fixed st).2.p
          = (ext.Solve (solverOptions maxit) (buildProblem model fixed input0)
            model.start).2) ∧
    (∀ scale : R, maxCoeff input0 = some scale → ¬ scale < epsilon →
      (ext.Solve (solverOptions maxit)
          (buildProblem model fixed (input0.map (fun x => x / scale)))
          model.start).1.isSolutionUsable = false →
      (ScaledNLLSFitFunction.fit ext ⟨model, maxit⟩ (input0 :: rest) fixed st).1 =
          FitExit.returned ⟨false, (ext.Solve (solverOptions maxit)
            (buildProblem model fixed (input0.map (fun x => x / scale)))
            model.start).1.fullReport⟩ ∧
        (ScaledNLLSFitFunction.fit ext ⟨model, maxit⟩ (input0 :: rest) fixed st).2.rmse
          = st.rmse ∧
        (ScaledNLLSFitFunction.fit ext ⟨model, maxit⟩ (input0 :: rest) fixed st).2.residuals
          = st.residuals ∧
        (ScaledNLLSFitFunction.fit ext ⟨model, maxit⟩ (input0 :: rest) fixed st).2.cov
          = st.cov ∧
        (ScaledNLLSFitFunction.fit ext ⟨model, maxit⟩ (input0 :: rest) fixed st).2.iterations
          = st.iterations ∧
        (ScaledNLLSFitFunction.fit ext ⟨model, maxit⟩ (input0 :: rest) fixed st).2.p
          = (ext.Solve (solverOptions maxit)
            (buildProblem model fixed (input0.map (fun x => x / scale))) model.start).2) := by
  constructor
  · intro hun
    simp [NLLSFitFunction.fit, hun]
  · intro scale hmax hscale hun
    simp [ScaledNLLSFitFunction.fit, hmax, hscale, hun]

/-- Witness of C7: a solver that reports failure, on the data `[2, 4]` with every output
requested. -/
theorem fit_unusable_solution_frame_witness :
    ((NLLSFitFunction.fit (exampleExternal failSolve) ⟨ampModel 2 0 1000 1, 100⟩
          ([2, 4] :: []) [] entryStateAll).1 = FitExit.returned ⟨false, "Solver failed"⟩ ∧
      (NLLSFitFunction.fit (exampleExternal failSolve) ⟨ampModel 2 0 1000 1, 100⟩
          ([2, 4] :: []) [] entryStateAll).2.rmse = 5 ∧
      (NLLSFitFunction.fit (exampleExternal failSolve) ⟨ampModel 2 0 1000 1, 100⟩
          ([2, 4] :: []) [] entryStateAll).2.residuals = [[]] ∧
      (NLLSFitFunction.fit (exampleExternal failSolve) ⟨ampModel 2 0 1000 1, 100⟩
          ([2, 4] :: []) [] entryStateAll).2.cov = some [9] ∧
      (NLLSFitFunction.fit (exampleExternal failSolve) ⟨ampModel 2 0 1000 1, 100⟩
          ([2, 4] :: []) [] entryStateAll).2.iterations = 3 ∧
      (NLLSFitFunction.fit (exampleExternal failSolve) ⟨ampModel 2 0 1000 1, 100⟩
          ([2, 4] :: []) [] entryStateAll).2.p = [1]) ∧
    ((ScaledNLLSFitFunction.fit (exampleExternal failSolve) ⟨ampModel 2 0 1000 1, 100⟩
          ([2, 4] :: []) [] entryStateAll).1 = FitExit.returned ⟨false, "Solver failed"⟩ ∧
      (ScaledNLLSFitFunction.fit (exampleExternal failSolve) ⟨ampModel 2 0 1000 1, 100⟩
          ([2, 4] :: []) [] entryStateAll).2.rmse = 5 ∧
      (ScaledNLLSFitFunction.fit (exampleExternal failSolve) ⟨ampModel 2 0 1000 1, 100⟩
          ([2, 4] :: []) [] entryStateAll).2.residuals = [[]] ∧
      (ScaledNLLSFitFunction.fit (exampleExternal failSolve) ⟨ampModel 2 0 1000 1, 100⟩
          ([2, 4] :: []) [] entryStateAll).2.cov = some [9] ∧
      (ScaledNLLSFitFunction.fit (exampleExternal failSolve) ⟨ampModel 2 0 1000 1, 100⟩
          ([2, 4] :: []) [] entryStateAll).2.iterations = 3 ∧
      (ScaledNLLSFitFunction.fit (exampleExternal failSolve) ⟨ampModel 2 0 1000 1, 100⟩
          ([2, 4] :: []) [] entryStateAll).2.p = [1]) :=
  ⟨(fit_unusable_solution_frame (exampleExternal failSolve) (ampModel 2 0 1000 1) 100 [2, 4] [] []
      entryStateAll).1 rfl,
   (fit_unusable_solution_frame (exampleExternal failSolve) (ampModel 2 0 1000 1) 100 [2, 4] [] []
      entryStateAll).2 4 (by simp [maxCoeff]; norm_num)
      (by unfold epsilon; norm_num) rfl⟩

/-- C6 (counterexample): a successful direct fit whose relative standard error is negative.
The constant-amplitude model bounded by `[-10, 10]` is fitted to `[-1, -3]`; the fitted
amplitude is `-2`, the scaled variance is `1`, and slot `0` of the covariance output is
`sqrt 1 / -2 = -1/2`. -/
theorem direct_fit_negative_relative_error :
    NLLSFitFunction.fit (exampleExternal ampSolve) ⟨ampModel 2 (-10) 10 1, 100⟩
        ([-1, -3] :: []) [] entryStateAll =
      (FitExit.returned ⟨true, ""⟩,
        ⟨[-2], some [-1 / 2], 1, [[1, -1]], 1,
          [Event.problemBuilt, Event.solve, Event.covariance]⟩) ∧
    ([-1 / 2] : List ℚ)[0]? = some (-1 / 2 : ℚ) ∧ (-1 / 2 : ℚ) < 0 := by
  refine ⟨?_, rfl, by norm_num⟩
  simp [NLLSFitFunction.fit, exampleExternal, ampSolve, ampModel, entryStateAll,
    buildProblem, arraySub, squareSum, List.range_succ, GetModelCovariance,
    GetModelCovarianceLoop, setHeadSqrt, covOuter, covInner, divHead]
  norm_num [qsqrt_one]

/-- C6 (amended): on every successful fit, direct or scaled, on data of length `n > NV`, with
covariance requested into a buffer of `NCov = NV * (NV + 1) / 2` slots and a covariance block
whose diagonal is non-negative, slot `i` of the covariance output (the relative standard error
of parameter `i`) exists and is non-negative for every parameter whose returned value is
positive.  The square root is only used on non-negative numbers, where it is non-negative. -/
theorem fit_relative_error_nonneg_of_pos (ext : External R) (model : Model R) (maxit : Int)
    (input0 : List R) (rest : List (List R)) (fixed : List R) (st out : FitState R)
    (msg : String) (c : List R) (hsqrt : ∀ x, 0 ≤ x → 0 ≤ ext.sqrt x)
    (hdiag : ∀ (pr : Problem R) (q : List R) (i : Nat), 0 ≤ ext.covariance pr q i i)
    (hcov : st.cov = some c) (hc : c.length = model.NCov)
    (hn : model.NV < input0.length) :
    (NLLSFitFunction.fit ext ⟨model, maxit⟩ (input0 :: rest) fixed st
        = (FitExit.returned ⟨true, msg⟩, out) →
      ∃ covOut : List R, out.cov = some covOut ∧ out.p.length = model.NV ∧
        ∀ (i : Nat) (x : R), out.p[i]? = some x → 0 < x → ∃ y : R, covOut[i]? = some y ∧ 0 ≤ y) ∧
    (ScaledNLLSFitFunction.fit ext ⟨model, maxit⟩ (input0 :: rest) fixed st
        = (FitExit.returned ⟨true, msg⟩, out) →
      ∃ covOut : List R, out.cov = some covOut ∧ out.p.length = model.NV ∧
        ∀ (i : Nat) (x : R), out.p[i]? = some x → 0 < x → ∃ y : R, covOut[i]? = some y ∧ 0 ≤ y) := by
  have hposR : (0 : R) ≤ (((input0.length : Int) - (model.NV : Int) : Int) : R) :=
    Int.cast_nonneg.2 (by omega)
  have hslot : ∀ (pr : Problem R) (q rs : List R) (i : Nat) (x : R), 0 < x →
      0 ≤ ext.sqrt (ext.covariance pr q i i
        * (squareSum rs / (((input0.length : Int) - (model.NV : Int) : Int) : R))) / x := by
    intro pr q rs i x hx
    exact div_nonneg
      (hsqrt _ (mul_nonneg (hdiag pr q i) (div_nonneg (squareSum_nonneg rs) hposR)))
      (le_of_lt hx)
  constructor
  · intro hfit
    obtain ⟨solved, rs, -, -, -, -, hp, -, -, -, hco, hsome, -⟩ :=
      direct_fit_success_inv ext ⟨model, maxit⟩ input0 rest fixed st out msg hfit
    simp only at hco
    obtain ⟨covOut, hout⟩ := Option.isSome_iff_exists.1 (hsome (by simp [hcov]))
    rw [hcov, Option.some_bind, hout] at hco
    have hv := GetModelCovariance_some_length _ _ _ _ _ _ _ hco.symm
    have hse := GetModelCovariance_head _ _ _ _ _ _ _ hc hco.symm
    refine ⟨covOut, hout, by rw [hp]; exact hv, ?_⟩
    intro i x hx hpos
    rw [hp] at hx
    exact ⟨_, hse i x hx, hslot _ _ rs i x hpos⟩
  · intro hfit
    cases hm : maxCoeff input0 with
    | none => simp [ScaledNLLSFitFunction.fit, hm] at hfit
    | some scale =>
      obtain ⟨solved, rs, p1, -, hscale, -, -, -, hp1, hp, -, -, -, hco, hsome, -⟩ :=
        scaled_fit_success_inv ext ⟨model, maxit⟩ input0 rest fixed st out scale msg hm hfit
      simp only [List.length_map] at hco
      have hspos : 0 < scale := lt_of_lt_of_le epsilon_pos (not_lt.1 hscale)
      obtain ⟨covOut, hout⟩ := Option.isSome_iff_exists.1 (hsome (by simp [hcov]))
      rw [hcov, Option.some_bind, hout] at hco
      have hv := GetModelCovariance_some_length _ _ _ _ _ _ _ hco.symm
      have hse := GetModelCovariance_head _ _ _ _ _ _ _ hc hco.symm
      cases hq : solved.2 with
      | nil => simp [hq, scaleFirst] at hp1
      | cons q0 qs =>
        simp only [hq, scaleFirst, Option.some.injEq] at hp1
        rw [hq] at hse hv
        refine ⟨covOut, hout, by rw [hp, ← hp1]; simpa using hv, ?_⟩
        intro i x hx hpos
        rw [hp, ← hp1] at hx
        cases i with
        | zero =>
          simp only [List.getElem?_cons_zero, Option.some.injEq] at hx
          have hq0 : 0 < q0 := by
            rw [← hx] at hpos
            exact pos_of_mul_pos_left hpos (le_of_lt hspos)
          exact ⟨_, hse 0 q0 (by simp), hslot _ _ rs 0 q0 hq0⟩
        | succ i =>
          simp only [List.getElem?_cons_succ] at hx
          exact ⟨_, hse (i + 1) x (by simpa using hx), hslot _ _ rs (i + 1) x hpos⟩

/-- Witness of C6 (amended), both strategies on two frames with `NV = 1`: the direct fit of the
constant-amplitude model to `[1, 3]` returns the amplitude `2` with relative standard error
`1/2`; the scaled fit to `[0, 4]` returns the amplitude `2` with relative standard error `1`. -/
theorem fit_relative_error_nonneg_of_pos_witness :
    (∃ covOut : List ℚ, (some [1 / 2] : Option (List ℚ)) = some covOut ∧
      ([2] : List ℚ).length = (ampModel 2 0 1000 1).NV ∧
      ∀ (i : Nat) (x : ℚ), ([2] : List ℚ)[i]? = some x → 0 < x →
        ∃ y : ℚ, covOut[i]? = some y ∧ 0 ≤ y) ∧
    (∃ covOut : List ℚ, (some [1] : Option (List ℚ)) = some covOut ∧
      ([2] : List ℚ).length = (ampModel 2 0 1000 1).NV ∧
      ∀ (i : Nat) (x : ℚ), ([2] : List ℚ)[i]? = some x → 0 < x →
        ∃ y : ℚ, covOut[i]? = some y ∧ 0 ≤ y) :=
  ⟨(fit_relative_error_nonneg_of_pos (exampleExternal ampSolve) (ampModel 2 0 1000 1) 100
      [1, 3] [] [] entryStateAll
      ⟨[2], some [1 / 2], 1, [[-1, 1]], 1, [Event.problemBuilt, Event.solve, Event.covariance]⟩
      "" [9] (fun x _ => qsqrt_nonneg x) (exampleExternal_covariance_nonneg ampSolve) rfl rfl
      (by decide)).1 direct_fit_positive_example,
   (fit_relative_error_nonneg_of_pos (exampleExternal ampSolve) (ampModel 2 0 1000 1) 100
      [0, 4] [] [] entryStateAll
      ⟨[2], some [1], 2, [[-2, 2]], 1, [Event.problemBuilt, Event.solve, Event.covariance]⟩
      "" [9] (fun x _ => qsqrt_nonneg x) (exampleExternal_covariance_nonneg ampSolve) rfl rfl
      (by decide)).2 scaled_fit_covariance_example⟩

/-- C9 (counterexample): a channel of three values for a model that declares two frames.  The
direct fit does not report the mismatch at entry: it builds the problem with two residuals and
the three data values, calls the solver, and returns no failure record; the mismatch is met only
afterwards, as a violated array-size precondition. -/
theorem direct_fit_length_mismatch_reaches_solver :
    ([1, 2, 3] : List ℚ).length ≠ (ampModel 2 0 1000 1).sequence_size ∧
    (buildProblem (ampModel 2 0 1000 1) [] [1, 2, 3]).num_residuals = 2 ∧
    (buildProblem (ampModel 2 0 1000 1) [] [1, 2, 3]).cost.data.length = 3 ∧
    NLLSFitFunction.fit (exampleExternal ampSolve) ⟨ampModel 2 0 1000 1, 100⟩
        ([1, 2, 3] :: []) [] entryState =
      (FitExit.aborted, ⟨[2], none, 5, [], 1, [Event.problemBuilt, Event.solve]⟩) := by
  refine ⟨by decide, rfl, rfl, ?_⟩
  simp [NLLSFitFunction.fit, exampleExternal, ampSolve, ampModel, entryState,
    buildProblem, arraySub, List.range_succ]
  norm_num

/-- C9 (amended): for a request whose first channel has a length different from the declared
size of the model, neither strategy checks the length at entry.  The direct fit builds the
problem with `model.sequence.size()` residuals around the channel as given, so that the two
disagree, and calls the solver; the scaled fit does the same with the normalised channel
whenever the scale is not below epsilon.  A failure record is returned after that only when the
solver reports its solution unusable, and its message is the report of the solver. -/
theorem fit_length_mismatch_not_checked (ext : External R) (model : Model R) (maxit : Int)
    (input0 : List R) (rest : List (List R)) (fixed : List R) (st : FitState R)
    (hmis : input0.length ≠ model.sequence_size) :
    ((buildProblem model fixed input0).num_residuals
        ≠ (buildProblem model fixed input0).cost.data.length ∧
      (∃ tail : List Event,
        (NLLSFitFunction.fit ext ⟨model, maxit⟩ (input0 :: rest) fixed st).2.events
          = st.events ++ [Event.problemBuilt, Event.solve] ++ tail) ∧
      (∀ msg : String,
        (NLLSFitFunction.fit ext ⟨model, maxit⟩ (input0 :: rest) fixed st).1
          = FitExit.returned ⟨false, msg⟩ →
        (ext.Solve (solverOptions maxit) (buildProblem model fixed input0)
          model.start).1.isSolutionUsable = false ∧
        msg = (ext.Solve (solverOptions maxit) (buildProblem model fixed input0)
          model.start).1.fullReport)) ∧
    (∀ scale : R, maxCoeff input0 = some scale → ¬ scale < epsilon →
      (buildProblem model fixed (input0.map (fun x => x / scale))).num_residuals
        ≠ (buildProblem model fixed (input0.map (fun x => x / scale))).cost.data.length ∧
      (∃ tail : List Event,
        (ScaledNLLSFitFunction.fit ext ⟨model, maxit⟩ (input0 :: rest) fixed st).2.events
          = st.events ++ [Event.problemBuilt, Event.solve] ++ tail) ∧
      (∀ msg : String,
        (ScaledNLLSFitFunction.fit ext ⟨model, maxit⟩ (input0 :: rest) fixed st).1
          = FitExit.returned ⟨false, msg⟩ →
        (ext.Solve (solverOptions maxit)
          (buildProblem model fixed (input0.map (fun x => x / scale)))
          model.start).1.isSolutionUsable = false ∧
        msg = (ext.Solve (solverOptions maxit)
          (buildProblem model fixed (input0.map (fun x => x / scale)))
          model.start).1.fullReport)) := by
  constructor
  · refine ⟨fun h => hmis h.symm, ?_, ?_⟩
    · simp only [NLLSFitFunction.fit]
      split
      · exact ⟨[], by simp⟩
      · split
        · exact ⟨[], by simp⟩
        · split
          · exact ⟨[], by simp⟩
          · split
            · exact ⟨[Event.covariance], by simp⟩
            · exact ⟨[Event.covariance], by simp⟩
    · intro msg
      simp only [NLLSFitFunction.fit]
      split
      · rename_i hun
        intro h
        simp only [FitExit.returned.injEq, FitReturnType.mk.injEq, true_and] at h
        exact ⟨by simpa using hun, h.symm⟩
      · split
        · simp
        · split
          · simp
          · split <;> simp
  · intro scale hmax hscale
    refine ⟨fun h => hmis (by simpa [buildProblem] using h.symm), ?_, ?_⟩
    · simp only [ScaledNLLSFitFunction.fit, hmax, hscale, if_false]
      split
      · exact ⟨[], by simp⟩
      · split
        · exact ⟨[], by simp⟩
        · split
          · split
            · exact ⟨[], by simp⟩
            · exact ⟨[], by simp⟩
          · split
            · exact ⟨[Event.covariance], by simp⟩
            · split
              · exact ⟨[Event.covariance], by simp⟩
              · exact ⟨[Event.covariance], by simp⟩
    · intro msg
      simp only [ScaledNLLSFitFunction.fit, hmax, hscale, if_false]
      split
      · rename_i hun
        intro h
        simp only [FitExit.returned.injEq, FitReturnType.mk.injEq, true_and] at h
        exact ⟨by simpa using hun, h.symm⟩
      · split
        · simp
        · split
          · split <;> simp
          · split
            · simp
            · split <;> simp

/-- Witness of C9 (amended): three data values for the two-frame constant-amplitude model. -/
theorem fit_length_mismatch_not_checked_witness :
    (buildProblem (ampModel 2 0 1000 1) [] [1, 2, 3]).num_residuals
      ≠ (buildProblem (ampModel 2 0 1000 1) [] [1, 2, 3]).cost.data.length ∧
    (∃ tail : List Event,
      (NLLSFitFunction.fit (exampleExternal ampSolve) ⟨ampModel 2 0 1000 1, 100⟩
          ([1, 2, 3] :: []) [] entryState).2.events
        = entryState.events ++ [Event.problemBuilt, Event.solve] ++ tail) ∧
    (∀ msg : String,
      (NLLSFitFunction.fit (exampleExternal ampSolve) ⟨ampModel 2 0 1000 1, 100⟩
          ([1, 2, 3] :: []) [] entryState).1 = FitExit.returned ⟨false, msg⟩ →
      ((exampleExternal ampSolve).Solve (solverOptions 100)
        (buildProblem (ampModel 2 0 1000 1) [] [1, 2, 3])
        (ampModel 2 0 1000 1).start).1.isSolutionUsable = false ∧
      msg = ((exampleExternal ampSolve).Solve (solverOptions 100)
        (buildProblem (ampModel 2 0 1000 1) [] [1, 2, 3])
        (ampModel 2 0 1000 1).start).1.fullReport) :=
  (fit_length_mismatch_not_checked (exampleExternal ampSolve) (ampModel 2 0 1000 1) 100 [1, 2, 3]
    [] [] entryState (by decide)).1

/-- C8 (amended): let `s`, the greatest value of `d`, be at least machine epsilon, let the
signal be homogeneous of degree one in the first parameter, and let both fits of `d` succeed.  If
the solver returns on the direct problem its unique exact bounded least-squares minimiser, on the
normalised problem a vector that stays optimal when the first parameter is left unbounded, and
the rescaled amplitude respects the bounds, then the scaled and the direct fit return the same
parameter vector. -/
theorem scaled_fit_eq_direct_fit_of_free_amplitude (ext : External R) (model : Model R)
    (maxit : Int) (d : List R) (rest : List (List R)) (fixed : List R)
    (st outd outs : FitState R) (s : R) (msgd msgs : String)
    (hmax : maxCoeff d = some s)
    (hhom : ∀ (a : R) (r : List R),
      model.signal (a * s :: r) fixed = (model.signal (a :: r) fixed).map (fun y => y * s))
    (hdirect : NLLSFitFunction.fit ext ⟨model, maxit⟩ (d :: rest) fixed st
      = (FitExit.returned ⟨true, msgd⟩, outd))
    (hscaled : ScaledNLLSFitFunction.fit ext ⟨model, maxit⟩ (d :: rest) fixed st
      = (FitExit.returned ⟨true, msgs⟩, outs))
    (hunique : ∀ q : List R, (buildProblem model fixed d).IsMinimiserFrom 0 q ↔ q = outd.p)
    (hnorm : (buildProblem model fixed (d.map (fun x => x / s))).IsMinimiserFrom 1
      (ext.Solve (solverOptions maxit) (buildProblem model fixed (d.map (fun x => x / s)))
        model.start).2)
    (hin : (buildProblem model fixed d).withinBoundsFrom 0 outs.p) :
    epsilon ≤ s ∧ outs.p = outd.p ∧
      outd.p = (ext.Solve (solverOptions maxit) (buildProblem model fixed d) model.start).2 := by
  obtain ⟨solvedd, -, hsolvedd, -, -, -, hpd, -⟩ :=
    direct_fit_success_inv ext ⟨model, maxit⟩ d rest fixed st outd msgd hdirect
  obtain ⟨solved, rs, p1, hsolved, hscale, -, -, -, hp1, hp, -⟩ :=
    scaled_fit_success_inv ext ⟨model, maxit⟩ d rest fixed st outs s msgs hmax hscaled
  simp only at hsolved hsolvedd
  have hspos : 0 < s := lt_of_lt_of_le epsilon_pos (not_lt.1 hscale)
  have hs : s ≠ 0 := ne_of_gt hspos
  refine ⟨not_lt.1 hscale, ?_, by rw [hpd, hsolvedd]⟩
  rw [← hsolved] at hnorm
  cases hq : solved.2 with
  | nil => simp [hq, scaleFirst] at hp1
  | cons q0 qs =>
    simp only [hq, scaleFirst, Option.some.injEq] at hp1
    rw [hq] at hnorm
    rw [hp, ← hp1] at hin ⊢
    apply (hunique _).1
    obtain ⟨-, cn, hcn, hmin⟩ := hnorm
    refine ⟨hin, s * s * cn, ?_, ?_⟩
    · rw [objective_scaled model fixed d s hs hhom q0 qs, hcn]
      rfl
    · intro q1 c1 hb1 hc1
      cases q1 with
      | nil =>
        have h1 := hb1.1
        have h2 := hin.1
        rw [← h1] at h2
        simp at h2
      | cons a r =>
        have key := objective_scaled model fixed d s hs hhom (a / s) r
        rw [div_mul_cancel₀ a hs, hc1] at key
        cases hobj : (buildProblem model fixed (d.map (fun x => x / s))).objective (a / s :: r) with
        | none =>
          rw [hobj] at key
          simp at key
        | some c2 =>
          rw [hobj] at key
          simp only [Option.map_some', Option.some.injEq] at key
          have hb2 : (buildProblem model fixed (d.map (fun x => x / s))).withinBoundsFrom 1
              (a / s :: r) := by
            refine ⟨hb1.1, ?_⟩
            intro i x hi hx
            obtain ⟨j, rfl⟩ : ∃ j, i = j + 1 := ⟨i - 1, by omega⟩
            exact hb1.2 (j + 1) x (Nat.zero_le _) (by simpa using hx)
          have hle := hmin (a / s :: r) c2 hb2 hobj
          rw [key]
          exact mul_le_mul_of_nonneg_left hle (mul_self_nonneg s)

/-- Witness of C8 (amended): the constant-amplitude model with bounds `[0, 1000]` on the data
`[2, 4]`; both strategies return the amplitude `3`. -/
theorem scaled_fit_eq_direct_fit_of_free_amplitude_witness :
    (epsilon : ℚ) ≤ 4 ∧ ([3] : List ℚ) = [3] ∧
      ([3] : List ℚ) = ((exampleExternal ampSolve).Solve (solverOptions 100)
        (buildProblem (ampModel 2 0 1000 1) [] [2, 4]) (ampModel 2 0 1000 1).start).2 :=
  scaled_fit_eq_direct_fit_of_free_amplitude (exampleExternal ampSolve) (ampModel 2 0 1000 1) 100
    [2, 4] [] [] entryState
    ⟨[3], none, 1, [], 1, [Event.problemBuilt, Event.solve]⟩
    ⟨[3], none, 1, [], 1, [Event.problemBuilt, Event.solve]⟩ 4 "" ""
    (by simp [maxCoeff]; norm_num)
    (by intro a r; simp [ampModel])
    direct_fit_raw_example
    scaled_fit_raw_example
    (by
      intro q
      constructor
      · rintro ⟨hb, c, hc, hmin⟩
        obtain ⟨a, rfl, hlo, hhi⟩ := (amp_withinBounds_zero 2 0 1000 1 [2, 4] q).1 hb
        rw [amp_objective] at hc
        have h3 := hmin [3] _ ((amp_withinBounds_zero 2 0 1000 1 [2, 4] [3]).2
          ⟨3, rfl, by norm_num, by norm_num⟩) (amp_objective 0 1000 1 2 4 3 [])
        simp only [Option.some.injEq] at hc
        have ha : a = 3 := by nlinarith [sq_nonneg (a - 3)]
        rw [ha]
      · rintro rfl
        refine ⟨(amp_withinBounds_zero 2 0 1000 1 [2, 4] [3]).2
          ⟨3, rfl, by norm_num, by norm_num⟩, _, amp_objective 0 1000 1 2 4 3 [], ?_⟩
        intro q1 c1 hb1 hc1
        obtain ⟨a, rfl, -, -⟩ := (amp_withinBounds_zero 2 0 1000 1 [2, 4] q1).1 hb1
        rw [amp_objective] at hc1
        simp only [Option.some.injEq] at hc1
        nlinarith [sq_nonneg (a - 3)])
    (by
      have hsol : ((exampleExternal ampSolve).Solve (solverOptions 100)
          (buildProblem (ampModel 2 0 1000 1) [] (List.map (fun x => x / 4) [2, 4]))
          (ampModel 2 0 1000 1).start).2 = [3 / 4] := by
        simp [exampleExternal, ampSolve, ampModel, buildProblem, List.range_succ]
        norm_num
      have hdata : List.map (fun x : ℚ => x / 4) [2, 4] = [1 / 2, 1] := by
        simp; norm_num
      rw [hsol, hdata]
      refine ⟨(amp_withinBounds_one 2 0 1000 1 _ _).2 ⟨_, rfl⟩, _,
        amp_objective 0 1000 1 (1 / 2) 1 (3 / 4) [], ?_⟩
      intro q1 c1 hb1 hc1
      obtain ⟨a, rfl⟩ := (amp_withinBounds_one 2 0 1000 1 _ q1).1 hb1
      rw [amp_objective] at hc1
      simp only [Option.some.injEq] at hc1
      nlinarith [sq_nonneg (a - 3 / 4)])
    ((amp_withinBounds_zero 2 0 1000 1 [2, 4] [3]).2 ⟨3, rfl, by norm_num, by norm_num⟩)

/-- C8 (counterexample): data with greatest value `s = 1000` and a model that bounds the
amplitude by `[0, 1]`.  The solver returns the exact bounded least-squares minimiser of each
problem it is given; the direct fit returns the amplitude `1` (the upper bound), the scaled fit
fits `d / s = [1, 1]` with amplitude `1` and returns `1 * 1000 = 1000`. -/
theorem scaled_fit_differs_from_direct_fit_at_bound :
    maxCoeff ([1000, 1000] : List ℚ) = some 1000 ∧
    NLLSFitFunction.fit (exampleExternal ampSolve) ⟨ampModel 2 0 1 1, 100⟩
        ([1000, 1000] :: []) [] entryState =
      (FitExit.returned ⟨true, ""⟩,
        ⟨[1], none, 999, [], 1, [Event.problemBuilt, Event.solve]⟩) ∧
    ScaledNLLSFitFunction.fit (exampleExternal ampSolve) ⟨ampModel 2 0 1 1, 100⟩
        ([1000, 1000] :: []) [] entryState =
      (FitExit.returned ⟨true, ""⟩,
        ⟨[1000], none, 0, [], 1, [Event.problemBuilt, Event.solve]⟩) ∧
    (buildProblem (ampModel 2 0 1 1) [] [1000, 1000]).IsMinimiserFrom 0 [1] ∧
    (buildProblem (ampModel 2 0 1 1) [] [1, 1]).IsMinimiserFrom 0 [1] ∧
    ([1] : List ℚ) ≠ [1000] := by
  refine ⟨?_, ?_, ?_, ?_, ?_, by decide⟩
  · simp [maxCoeff]
  · simp [NLLSFitFunction.fit, exampleExternal, ampSolve, ampModel, entryState,
      buildProblem, arraySub, squareSum, List.range_succ]
    norm_num [qsqrt_999]
  · simp [ScaledNLLSFitFunction.fit, maxCoeff, exampleExternal, ampSolve, ampModel, entryState,
      buildProblem, arraySub, squareSum, scaleFirst, epsilon, List.range_succ]
    norm_num [qsqrt_zero]
  · refine ⟨(amp_withinBounds_zero 2 0 1 1 _ [1]).2 ⟨1, rfl, by norm_num, by norm_num⟩, _,
      amp_objective 0 1 1 1000 1000 1 [], ?_⟩
    intro q1 c1 hb1 hc1
    obtain ⟨a, rfl, hlo, hhi⟩ := (amp_withinBounds_zero 2 0 1 1 _ q1).1 hb1
    rw [amp_objective] at hc1
    simp only [Option.some.injEq] at hc1
    nlinarith
  · refine ⟨(amp_withinBounds_zero 2 0 1 1 _ [1]).2 ⟨1, rfl, by norm_num, by norm_num⟩, _,
      amp_objective 0 1 1 1 1 1 [], ?_⟩
    intro q1 c1 hb1 hc1
    obtain ⟨a, rfl, hlo, hhi⟩ := (amp_withinBounds_zero 2 0 1 1 _ q1).1 hb1
    rw [amp_objective] at hc1
    simp only [Option.some.injEq] at hc1
    nlinarith [sq_nonneg (1 - a)]

end FitTheorems

section LaterFitTheorems

variable {R : Type} [LinearOrderedField R]

/-- C12: on every successful direct or scaled fit with covariance requested and data of length
`n > NV`, the covariance output is `GetModelCovariance` called with the scale
`(sum of squared residuals) / (n - NV)`, where the divisor is the positive integer `n - NV` and
the scale is non-negative.  In the scaled strategy the residuals are those of the normalised
data, and the parameter vector passed is the one of the solver, before its first entry is
multiplied by the scale. -/
theorem fit_covariance_scale (ext : External R) (model : Model R) (maxit : Int)
    (input0 : List R) (rest : List (List R)) (fixed : List R) (st out : FitState R)
    (msg : String) (c : List R) (hcov : st.cov = some c) (hn : model.NV < input0.length) :
    (NLLSFitFunction.fit ext ⟨model, maxit⟩ (input0 :: rest) fixed st
        = (FitExit.returned ⟨true, msg⟩, out) →
      ∃ rs : List R, arraySub input0 (model.signal out.p fixed) = some rs ∧
        out.cov = GetModelCovariance ext.sqrt model.NV
          (ext.covariance (buildProblem model fixed input0) out.p) out.p
          (squareSum rs / (((input0.length : Int) - (model.NV : Int) : Int) : R)) c ∧
        0 < (input0.length : Int) - (model.NV : Int) ∧
        0 ≤ squareSum rs / (((input0.length : Int) - (model.NV : Int) : Int) : R)) ∧
    (∀ scale : R, maxCoeff input0 = some scale →
      ScaledNLLSFitFunction.fit ext ⟨model, maxit⟩ (input0 :: rest) fixed st
        = (FitExit.returned ⟨true, msg⟩, out) →
      ∃ q rs : List R,
        q = (ext.Solve (solverOptions maxit)
          (buildProblem model fixed (input0.map (fun x => x / scale))) model.start).2 ∧
        arraySub (input0.map (fun x => x / scale)) (model.signal q fixed) = some rs ∧
        scaleFirst q scale = some out.p ∧
        out.cov = GetModelCovariance ext.sqrt model.NV
          (ext.covariance (buildProblem model fixed (input0.map (fun x => x / scale))) q) q
          (squareSum rs / (((input0.length : Int) - (model.NV : Int) : Int) : R)) c ∧
        0 < (input0.length : Int) - (model.NV : Int) ∧
        0 ≤ squareSum rs / (((input0.length : Int) - (model.NV : Int) : Int) : R)) := by
  have hpos : 0 < (input0.length : Int) - (model.NV : Int) := by omega
  have hposR : (0 : R) < (((input0.length : Int) - (model.NV : Int) : Int) : R) :=
    Int.cast_pos.2 hpos
  constructor
  · intro hfit
    obtain ⟨solved, rs, -, -, -, hrs, hp, -, -, -, hco, -, -⟩ :=
      direct_fit_success_inv ext ⟨model, maxit⟩ input0 rest fixed st out msg hfit
    simp only at hco hrs
    rw [hcov, Option.some_bind] at hco
    rw [hp]
    exact ⟨rs, hrs, hco, hpos, div_nonneg (squareSum_nonneg rs) (le_of_lt hposR)⟩
  · intro scale hmax hfit
    obtain ⟨solved, rs, p1, hsolved, -, -, -, hrs, hp1, hp, -, -, -, hco, -, -⟩ :=
      scaled_fit_success_inv ext ⟨model, maxit⟩ input0 rest fixed st out scale msg hmax hfit
    simp only [List.length_map] at hco hrs hsolved
    rw [hcov, Option.some_bind] at hco
    exact ⟨solved.2, rs, by rw [hsolved], hrs, by rw [hp]; exact hp1, hco, hpos,
      div_nonneg (squareSum_nonneg rs) (le_of_lt hposR)⟩

/-- Witness of C12, both strategies on two frames with `NV = 1` and covariance requested: the
direct fit of the constant-amplitude model to `[1, 3]`, and the scaled fit to `[0, 4]`, whose
solver vector on the normalised data is `[1/2]` and whose returned vector is `[2]`. -/
theorem fit_covariance_scale_witness :
    (∃ rs : List ℚ, arraySub [1, 3] ((ampModel 2 0 1000 1).signal [2] []) = some rs ∧
      (some [1 / 2] : Option (List ℚ)) = GetModelCovariance (exampleExternal ampSolve).sqrt
        (ampModel 2 0 1000 1).NV
        ((exampleExternal ampSolve).covariance (buildProblem (ampModel 2 0 1000 1) [] [1, 3])
          [2]) [2]
        (squareSum rs / (((([1, 3] : List ℚ).length : Int)
          - ((ampModel 2 0 1000 1).NV : Int) : Int) : ℚ)) [9] ∧
      0 < (([1, 3] : List ℚ).length : Int) - ((ampModel 2 0 1000 1).NV : Int) ∧
      0 ≤ squareSum rs / (((([1, 3] : List ℚ).length : Int)
        - ((ampModel 2 0 1000 1).NV : Int) : Int) : ℚ)) ∧
    (∃ q rs : List ℚ,
      q = ((exampleExternal ampSolve).Solve (solverOptions 100)
        (buildProblem (ampModel 2 0 1000 1) [] (([0, 4] : List ℚ).map (fun x => x / 4)))
        (ampModel 2 0 1000 1).start).2 ∧
      arraySub (([0, 4] : List ℚ).map (fun x => x / 4)) ((ampModel 2 0 1000 1).signal q [])
        = some rs ∧
      scaleFirst q 4 = some [2] ∧
      (some [1] : Option (List ℚ)) = GetModelCovariance (exampleExternal ampSolve).sqrt
        (ampModel 2 0 1000 1).NV
        ((exampleExternal ampSolve).covariance
          (buildProblem (ampModel 2 0 1000 1) [] (([0, 4] : List ℚ).map (fun x => x / 4))) q) q
        (squareSum rs / (((([0, 4] : List ℚ).length : Int)
          - ((ampModel 2 0 1000 1).NV : Int) : Int) : ℚ)) [9] ∧
      0 < (([0, 4] : List ℚ).length : Int) - ((ampModel 2 0 1000 1).NV : Int) ∧
      0 ≤ squareSum rs / (((([0, 4] : List ℚ).length : Int)
        - ((ampModel 2 0 1000 1).NV : Int) : Int) : ℚ)) :=
  ⟨(fit_covariance_scale (exampleExternal ampSolve) (ampModel 2 0 1000 1) 100 [1, 3] [] []
      entryStateAll
      ⟨[2], some [1 / 2], 1, [[-1, 1]], 1, [Event.problemBuilt, Event.solve, Event.covariance]⟩
      "" [9] rfl (by decide)).1 direct_fit_positive_example,
   (fit_covariance_scale (exampleExternal ampSolve) (ampModel 2 0 1000 1) 100 [0, 4] [] []
      entryStateAll
      ⟨[2], some [1], 2, [[-2, 2]], 1, [Event.problemBuilt, Event.solve, Event.covariance]⟩
      "" [9] rfl (by decide)).2 4 (by simp [maxCoeff]) scaled_fit_covariance_example⟩

/-- C13: for a cost functor whose observed data and whose signal both have one entry per
acquisition frame, and every trial vector `v`, `ModelCost::operator()` writes one residual per
frame, `residual[k] = observed[k] - signal(v, fixed)[k]` for every frame `k`, and returns `true`.
The captured model, fixed vector and data are `const` members and the operator is `const`: the
functor is a value that a call cannot change, and the residuals are a function of it and of `v`
alone, so every invocation with the same `v` gives the same residuals. -/
theorem ModelCost_call_residuals (c : ModelCost R) (v : List R)
    (hdata : c.data.length = c.model.sequence_size)
    (hsig : (c.model.signal v c.fixed).length = c.model.sequence_size) :
    ∃ r : List R, c.call v = some (true, r) ∧ r.length = c.model.sequence_size ∧
      (∀ k : Nat, k < c.model.sequence_size →
        ∃ x y : R, c.data[k]? = some x ∧ (c.model.signal v c.fixed)[k]? = some y ∧
          r[k]? = some (x - y)) := by
  have hlen : c.data.length = (c.model.signal v c.fixed).length := by rw [hdata, hsig]
  have hcall : c.call v
      = some (true, List.zipWith (fun x y => x - y) c.data (c.model.signal v c.fixed)) := by
    simp [ModelCost.call, arraySub, hlen]
  refine ⟨_, hcall, by simp [hlen, hsig], ?_⟩
  intro k hk
  have hk1 : k < c.data.length := by rw [hdata]; exact hk
  have hk2 : k < (c.model.signal v c.fixed).length := by rw [hsig]; exact hk
  refine ⟨c.data[k], (c.model.signal v c.fixed)[k], List.getElem?_eq_getElem hk1,
    List.getElem?_eq_getElem hk2, ?_⟩
  simp [List.getElem?_zipWith, List.getElem?_eq_getElem hk1, List.getElem?_eq_getElem hk2]

/-- Witness of C13: the two-frame constant-amplitude model, observed data `[1, 3]`, trial
amplitude `2`. -/
theorem ModelCost_call_residuals_witness :
    ∃ r : List ℚ,
      (⟨ampModel 2 0 1000 1, [], [1, 3]⟩ : ModelCost ℚ).call [2] = some (true, r) ∧
      r.length = (ampModel 2 0 1000 1).sequence_size ∧
      (∀ k : Nat, k < (ampModel 2 0 1000 1).sequence_size →
        ∃ x y : ℚ, ([1, 3] : List ℚ)[k]? = some x ∧
          ((ampModel 2 0 1000 1).signal [2] [])[k]? = some y ∧ r[k]? = some (x - y)) :=
  ModelCost_call_residuals ⟨ampModel 2 0 1000 1, [], [1, 3]⟩ [2] rfl rfl

/-- C14: both strategies start the solver from `model.start`, whatever the output parameter
vector holds on entry.  For every solver: the solver is called, the parameter block after the
direct fit is the one `Solve` produces from the initial value `model.start`, and the block after
the scaled fit is that of `Solve` from `model.start` on the normalised data, its first entry
multiplied by the scale on success.  Two calls with the same model, inputs, fixed parameters and
solver that differ only in the entry contents `p1`, `p2` of the parameter vector end the same
way, and when they return, the success flag, the message, and every output (parameters, RMSE,
residuals, covariance, iterations) are identical. -/
theorem fit_independent_of_entry_parameters (ext : External R) (model : Model R) (maxit : Int)
    (inputs : List (List R)) (fixed : List R) (st : FitState R) (p1 p2 : List R) :
    ((NLLSFitFunction.fit ext ⟨model, maxit⟩ inputs fixed { st with p := p1 }).1
        = (NLLSFitFunction.fit ext ⟨model, maxit⟩ inputs fixed { st with p := p2 }).1 ∧
      (∀ r : FitReturnType,
        (NLLSFitFunction.fit ext ⟨model, maxit⟩ inputs fixed { st with p := p1 }).1
          = FitExit.returned r →
        (NLLSFitFunction.fit ext ⟨model, maxit⟩ inputs fixed { st with p := p1 }).2
          = (NLLSFitFunction.fit ext ⟨model, maxit⟩ inputs fixed { st with p := p2 }).2)) ∧
    ((ScaledNLLSFitFunction.fit ext ⟨model, maxit⟩ inputs fixed { st with p := p1 }).1
        = (ScaledNLLSFitFunction.fit ext ⟨model, maxit⟩ inputs fixed { st with p := p2 }).1 ∧
      (∀ r : FitReturnType,
        (ScaledNLLSFitFunction.fit ext ⟨model, maxit⟩ inputs fixed { st with p := p1 }).1
          = FitExit.returned r →
        (ScaledNLLSFitFunction.fit ext ⟨model, maxit⟩ inputs fixed { st with p := p1 }).2
          = (ScaledNLLSFitFunction.fit ext ⟨model, maxit⟩ inputs fixed { st with p := p2 }).2)) ∧
    (∀ (input0 : List R) (rest : List (List R)), inputs = input0 :: rest →
      ((∃ tail : List Event,
          (NLLSFitFunction.fit ext ⟨model, maxit⟩ inputs fixed { st with p := p1 }).2.events
            = st.events ++ [Event.problemBuilt, Event.solve] ++ tail) ∧
        (NLLSFitFunction.fit ext ⟨model, maxit⟩ inputs fixed { st with p := p1 }).2.p
          = (ext.Solve (solverOptions maxit) (buildProblem model fixed input0)
              model.start).2) ∧
      (∀ scale : R, maxCoeff input0 = some scale → ¬ scale < epsilon →
        (∃ tail : List Event,
          (ScaledNLLSFitFunction.fit ext ⟨model, maxit⟩ inputs fixed { st with p := p1 }).2.events
            = st.events ++ [Event.problemBuilt, Event.solve] ++ tail) ∧
        ((ScaledNLLSFitFunction.fit ext ⟨model, maxit⟩ inputs fixed { st with p := p1 }).2.p
            = (ext.Solve (solverOptions maxit)
                (buildProblem model fixed (input0.map (fun x => x / scale))) model.start).2 ∨
          scaleFirst (ext.Solve (solverOptions maxit)
                (buildProblem model fixed (input0.map (fun x => x / scale))) model.start).2 scale
            = some
              (ScaledNLLSFitFunction.fit ext ⟨model, maxit⟩ inputs fixed { st with p := p1 }).2.p) ∧
        (∀ msg : String,
          (ScaledNLLSFitFunction.fit ext ⟨model, maxit⟩ inputs fixed { st with p := p1 }).1
            = FitExit.returned ⟨true, msg⟩ →
          scaleFirst (ext.Solve (solverOptions maxit)
                (buildProblem model fixed (input0.map (fun x => x / scale))) model.start).2 scale
            = some
              (ScaledNLLSFitFunction.fit ext ⟨model, maxit⟩ inputs fixed
                { st with p := p1 }).2.p))) := by
  refine ⟨?_, ?_, ?_⟩
  · cases inputs with
    | nil => simp [NLLSFitFunction.fit]
    | cons input0 rest => exact ⟨rfl, fun _ _ => rfl⟩
  · cases inputs with
    | nil => simp [ScaledNLLSFitFunction.fit]
    | cons input0 rest =>
      cases hm : maxCoeff input0 with
      | none => simp [ScaledNLLSFitFunction.fit, hm]
      | some scale =>
        by_cases hs : scale < epsilon
        · simp [ScaledNLLSFitFunction.fit, hm, hs]
        · simp [ScaledNLLSFitFunction.fit, hm, hs]
  · rintro input0 rest rfl
    refine ⟨⟨?_, ?_⟩, ?_⟩
    · simp only [NLLSFitFunction.fit]
      split
      · exact ⟨[], by simp⟩
      · split
        · exact ⟨[], by simp⟩
        · split
          · exact ⟨[], by simp⟩
          · split
            · exact ⟨[Event.covariance], by simp⟩
            · exact ⟨[Event.covariance], by simp⟩
    · simp only [NLLSFitFunction.fit]
      split
      · rfl
      · split
        · rfl
        · split
          · rfl
          · split <;> rfl
    · intro scale hmax hscale
      refine ⟨?_, ?_, ?_⟩
      · simp only [ScaledNLLSFitFunction.fit, hmax, hscale, if_false]
        split
        · exact ⟨[], by simp⟩
        · split
          · exact ⟨[], by simp⟩
          · split
            · split
              · exact ⟨[], by simp⟩
              · exact ⟨[], by simp⟩
            · split
              · exact ⟨[Event.covariance], by simp⟩
              · split
                · exact ⟨[Event.covariance], by simp⟩
                · exact ⟨[Event.covariance], by simp⟩
      · simp only [ScaledNLLSFitFunction.fit, hmax, hscale, if_false]
        split
        · exact Or.inl rfl
        · split
          · exact Or.inl rfl
          · split
            · split
              · exact Or.inl rfl
              · rename_i heq
                exact Or.inr heq
            · split
              · exact Or.inl rfl
              · split
                · exact Or.inl rfl
                · rename_i heq
                  exact Or.inr heq
      · intro msg hexit
        have hfit : ScaledNLLSFitFunction.fit ext ⟨model, maxit⟩ (input0 :: rest) fixed
            { st with p := p1 }
            = (FitExit.returned ⟨true, msg⟩,
              (ScaledNLLSFitFunction.fit ext ⟨model, maxit⟩ (input0 :: rest) fixed
                { st with p := p1 }).2) := Prod.ext hexit rfl
        obtain ⟨solved, rs, q1, hsolved, -, -, -, -, hq1, hp, -⟩ :=
          scaled_fit_success_inv ext ⟨model, maxit⟩ input0 rest fixed _ _ scale msg hmax hfit
        simp only at hsolved
        rw [← hsolved, hp]
        exact hq1

/-- Witness of C14: a solver that returns its start point, the constant-amplitude model with
`start = [3]`, and the entry contents `[7]` and `[8]` of the parameter vector.  The direct fit
returns the start point `[3]`, the scaled fit of `[2, 4]` returns `[3 * 4]`. -/
theorem fit_independent_of_entry_parameters_witness :
    (NLLSFitFunction.fit (exampleExternal echoSolve) ⟨ampModel 2 0 1000 3, 100⟩ [[3, 3]] []
        { entryState with p := [7] }).2.p = [3] ∧
    scaleFirst [3] 4
      = some (ScaledNLLSFitFunction.fit (exampleExternal echoSolve) ⟨ampModel 2 0 1000 3, 100⟩
          [[2, 4]] [] { entryState with p := [7] }).2.p ∧
    (NLLSFitFunction.fit (exampleExternal echoSolve) ⟨ampModel 2 0 1000 3, 100⟩ [[3, 3]] []
        { entryState with p := [7] }).1
      = (NLLSFitFunction.fit (exampleExternal echoSolve) ⟨ampModel 2 0 1000 3, 100⟩ [[3, 3]] []
        { entryState with p := [8] }).1 :=
  ⟨((fit_independent_of_entry_parameters (exampleExternal echoSolve) (ampModel 2 0 1000 3) 100
      [[3, 3]] [] entryState [7] [8]).2.2 [3, 3] [] rfl).1.2,
   (((fit_independent_of_entry_parameters (exampleExternal echoSolve) (ampModel 2 0 1000 3) 100
      [[2, 4]] [] entryState [7] [8]).2.2 [2, 4] [] rfl).2 4 (by simp [maxCoeff]; norm_num)
      (by unfold epsilon; norm_num)).2.2 ""
      (by
        simp [ScaledNLLSFitFunction.fit, maxCoeff, exampleExternal, echoSolve, ampModel,
          entryState, buildProblem, arraySub, scaleFirst, epsilon, List.range_succ]
        norm_num),
   (fit_independent_of_entry_parameters (exampleExternal echoSolve) (ampModel 2 0 1000 3) 100
      [[3, 3]] [] entryState [7] [8]).1.1⟩

end LaterFitTheorems

section ScaleFreeTheorems

variable {R : Type} [LinearOrderedField R]

/-- Every slot from `NV` up to `NV * (NV + 1) / 2` is the reference slot of one pair `i < j`. -/
theorem exists_corrSlot (NV t : Nat) (h1 : NV ≤ t) :
    ∀ n, n ≤ NV → t < rowStart NV n →
      ∃ i j, i < n ∧ i < j ∧ j < NV ∧ corrSlot NV i j = t := by
  intro n
  induction n with
  | zero =>
    intro _ h
    rw [rowStart_zero] at h
    omega
  | succ n ih =>
    intro hn h
    by_cases hlt : t < rowStart NV n
    · obtain ⟨i, j, hi, hij, hj, hslot⟩ := ih (by omega) hlt
      exact ⟨i, j, by omega, hij, hj, hslot⟩
    · have hnext := rowStart_succ NV n (by omega)
      refine ⟨n, n + 1 + (t - rowStart NV n), by omega, by omega, by omega, ?_⟩
      rw [corrSlot_eq]
      omega

/-- A non-negative function with `sqrt a * sqrt a = a` on non-negative numbers is
multiplicative on them. -/
theorem sqrt_mul_of_mul_self (sqrt : R → R) (hsq : ∀ a, 0 ≤ a → sqrt a * sqrt a = a)
    (hnn : ∀ a, 0 ≤ sqrt a) (a b : R) (ha : 0 ≤ a) (hb : 0 ≤ b) :
    sqrt (a * b) = sqrt a * sqrt b := by
  apply (mul_self_inj_of_nonneg (hnn _) (mul_nonneg (hnn _) (hnn _))).1
  rw [hsq _ (mul_nonneg ha hb)]
  calc a * b = (sqrt a * sqrt a) * (sqrt b * sqrt b) := by rw [hsq a ha, hsq b hb]
    _ = sqrt a * sqrt b * (sqrt a * sqrt b) := by ring

theorem sqrt_pos_of_mul_self (sqrt : R → R) (hsq : ∀ a, 0 ≤ a → sqrt a * sqrt a = a)
    (hnn : ∀ a, 0 ≤ sqrt a) (a : R) (ha : 0 < a) : 0 < sqrt a := by
  rcases lt_or_eq_of_le (hnn a) with h | h
  · exact h
  · have := hsq a (le_of_lt ha)
    rw [← h, mul_zero] at this
    exact absurd this.symm (ne_of_gt ha)

/-- C17: for a covariance matrix `C` with positive diagonal, a fitted vector `v` and two scale
factors `k1 > 0`, `k2 > 0`, with `sqrt` the non-negative square root, the correlation slots that
`GetModelCovariance` writes do not depend on the scale factor: every slot from `NV` to
`NV * (NV + 1) / 2 - 1` is the same in both runs, the slot of the pair `i < j` being
`C[i][j] / sqrt (C[i][i] * C[j][j])`, while each of the first `NV` slots with `k1` is
`sqrt (k1 / k2)` times the slot with `k2`. -/
theorem GetModelCovariance_correlations_scale_free (sqrt : R → R) (NV : Nat)
    (C : Nat → Nat → R) (v : List R) (k1 k2 : R) (cov1 cov2 : List R)
    (hsq : ∀ a, 0 ≤ a → sqrt a * sqrt a = a) (hnn : ∀ a, 0 ≤ sqrt a)
    (hdiag : ∀ i, i < NV → 0 < C i i) (hk1 : 0 < k1) (hk2 : 0 < k2)
    (hlen1 : cov1.length = NV * (NV + 1) / 2) (hlen2 : cov2.length = NV * (NV + 1) / 2)
    (hv : v.length = NV) :
    ∃ out1 out2 : List R,
      GetModelCovariance sqrt NV C v k1 cov1 = some out1 ∧
      GetModelCovariance sqrt NV C v k2 cov2 = some out2 ∧
      (∀ i j, i < j → j < NV →
        out1[corrSlot NV i j]? = some (C i j / sqrt (C i i * C j j)) ∧
        out2[corrSlot NV i j]? = some (C i j / sqrt (C i i * C j j))) ∧
      (∀ t, NV ≤ t → t < NV * (NV + 1) / 2 → out1[t]? = out2[t]?) ∧
      (∀ i, i < NV → ∃ x y : R, out1[i]? = some x ∧ out2[i]? = some y ∧
        x = sqrt (k1 / k2) * y) := by
  obtain ⟨s1, hs1, -, -, -, hse1, hcorr1⟩ :=
    GetModelCovarianceLoop_spec sqrt NV C v k1 cov1 hlen1 hv
  obtain ⟨s2, hs2, -, -, -, hse2, hcorr2⟩ :=
    GetModelCovarianceLoop_spec sqrt NV C v k2 cov2 hlen2 hv
  have hmul := sqrt_mul_of_mul_self sqrt hsq hnn
  have hpos := sqrt_pos_of_mul_self sqrt hsq hnn
  have hfree : ∀ (k : R), 0 < k → ∀ i j, i < NV → j < NV →
      C i j * k / (sqrt (C i i * k) * sqrt (C j j * k)) = C i j / sqrt (C i i * C j j) := by
    intro k hk i j hi hj
    have hci := hdiag i hi
    have hcj := hdiag j hj
    have hsk : sqrt k * sqrt k = k := hsq k (le_of_lt hk)
    have hskpos : 0 < sqrt k := hpos k hk
    have h3 : 0 < sqrt (C i i) := hpos _ hci
    have h4 : 0 < sqrt (C j j) := hpos _ hcj
    rw [hmul _ _ (le_of_lt hci) (le_of_lt hk), hmul _ _ (le_of_lt hcj) (le_of_lt hk),
      hmul _ _ (le_of_lt hci) (le_of_lt hcj)]
    rw [div_eq_div_iff (by positivity) (by positivity)]
    calc C i j * k * (sqrt (C i i) * sqrt (C j j))
        = C i j * (sqrt k * sqrt k) * (sqrt (C i i) * sqrt (C j j)) := by rw [hsk]
      _ = C i j * (sqrt (C i i) * sqrt k * (sqrt (C j j) * sqrt k)) := by ring
  refine ⟨s1.cov, s2.cov, by simp [GetModelCovariance, hs1], by simp [GetModelCovariance, hs2],
    ?_, ?_, ?_⟩
  · intro i j hij hj
    rw [hcorr1 i j hij hj, hcorr2 i j hij hj, hfree k1 hk1 i j (by omega) hj,
      hfree k2 hk2 i j (by omega) hj]
    exact ⟨rfl, rfl⟩
  · intro t ht1 ht2
    rw [← rowStart_self] at ht2
    obtain ⟨i, j, -, hij, hj, rfl⟩ := exists_corrSlot NV t ht1 NV (le_refl _) ht2
    rw [hcorr1 i j hij hj, hcorr2 i j hij hj, hfree k1 hk1 i j (by omega) hj,
      hfree k2 hk2 i j (by omega) hj]
  · intro i hi
    have hi2 : i < v.length := by rw [hv]; exact hi
    refine ⟨_, _, hse1 i v[i] (List.getElem?_eq_getElem hi2),
      hse2 i v[i] (List.getElem?_eq_getElem hi2), ?_⟩
    have hci := hdiag i hi
    rw [← mul_div_assoc, ← hmul _ _ (le_of_lt (div_pos hk1 hk2))
      (mul_nonneg (le_of_lt hci) (le_of_lt hk2))]
    congr 2
    field_simp
    ring

/-- Witness of C17 over the real numbers with the real square root: two parameters, unit
variances, covariance `1/2`, scale factors `1` and `4`. -/
theorem GetModelCovariance_correlations_scale_free_witness :
    ∃ out1 out2 : List ℝ,
      GetModelCovariance Real.sqrt 2 (fun i j => if i = j then 1 else 1 / 2) [3, 5] 1 [0, 0, 0]
        = some out1 ∧
      GetModelCovariance Real.sqrt 2 (fun i j => if i = j then 1 else 1 / 2) [3, 5] 4 [0, 0, 0]
        = some out2 ∧
      (∀ i j, i < j → j < 2 →
        out1[corrSlot 2 i j]? = some ((if i = j then (1 : ℝ) else 1 / 2)
          / Real.sqrt ((if i = i then 1 else 1 / 2) * (if j = j then 1 else 1 / 2))) ∧
        out2[corrSlot 2 i j]? = some ((if i = j then (1 : ℝ) else 1 / 2)
          / Real.sqrt ((if i = i then 1 else 1 / 2) * (if j = j then 1 else 1 / 2)))) ∧
      (∀ t, 2 ≤ t → t < 2 * (2 + 1) / 2 → out1[t]? = out2[t]?) ∧
      (∀ i, i < 2 → ∃ x y : ℝ, out1[i]? = some x ∧ out2[i]? = some y ∧
        x = Real.sqrt (1 / 4) * y) :=
  GetModelCovariance_correlations_scale_free Real.sqrt 2 (fun i j => if i = j then 1 else 1 / 2)
    [3, 5] 1 4 [0, 0, 0] [0, 0, 0] (fun _ h => Real.mul_self_sqrt h) Real.sqrt_nonneg
    (fun i _ => by simp) one_pos (by norm_num) rfl rfl rfl

end ScaleFreeTheorems

section RandomTheorems

/-- Every call of `RandomSeed` that finds `init` false seeds the generator again and leaves
`init` false. -/
theorem RandomSeed_reseeds {G : Type} (lib : RandomLib G) (s : SeedState G)
    (h : s.init = false) :
    (RandomSeed lib s).2.init = false ∧
    (RandomSeed lib s).2.seedings = s.seedings + 1 ∧
    (RandomSeed lib s).2.rd_taken = s.rd_taken + 1 ∧
    (RandomSeed lib s).1 = (lib.next (lib.seeded (lib.device s.rd_taken))).1 := by
  simp [RandomSeed, h]

/-- After `n` calls from a state with `init` false the generator has been seeded `n` more
times. -/
theorem RandomSeedCalls_seedings {G : Type} (lib : RandomLib G) :
    ∀ (n : Nat) (s : SeedState G), s.init = false →
      (RandomSeedCalls lib n s).2.init = false ∧
      (RandomSeedCalls lib n s).2.seedings = s.seedings + n := by
  intro n
  induction n with
  | zero => intro s h; exact ⟨h, rfl⟩
  | succ n ih =>
    intro s h
    obtain ⟨h1, h2, -, -⟩ := RandomSeed_reseeds lib s h
    obtain ⟨h3, h4⟩ := ih (RandomSeed lib s).2 h1
    refine ⟨h3, ?_⟩
    show (RandomSeedCalls lib n (RandomSeed lib s).2).2.seedings = s.seedings + (n + 1)
    rw [h4, h2]
    omega

/-- C11 (the code at the failing input): two successive calls of `RandomSeed` from the initial
statics seed the generator twice, once per call.  The second call does not return the next value
`1001` of the generator seeded by the first call, but the first value `2000` of a generator
seeded afresh from the device, and `init` is still false afterwards. -/
theorem RandomSeed_second_call_reseeds :
    (RandomSeedCalls counterLib 2 (SeedState.initial counterLib)).1 = [1000, 2000] ∧
    (RandomSeedCalls counterLib 2 (SeedState.initial counterLib)).2.seedings = 2 ∧
    (RandomSeedCalls counterLib 2 (SeedState.initial counterLib)).2.rd_taken = 2 ∧
    (RandomSeedCalls counterLib 2 (SeedState.initial counterLib)).2.init = false := by
  decide

end RandomTheorems

section FileNameTheorems

theorem findLastFrom_append (c : Char) :
    ∀ (xs ys : List Char) (i : Nat) (best : Option Nat),
      findLastFrom c (xs ++ ys) i best
        = findLastFrom c ys (i + xs.length) (findLastFrom c xs i best) := by
  intro xs
  induction xs with
  | nil => intro ys i best; simp [findLastFrom]
  | cons x xs ih =>
    intro ys i best
    have h := ih ys (i + 1) (if x = c then some i else best)
    rw [show i + 1 + xs.length = i + (xs.length + 1) by omega] at h
    exact h

theorem findLastFrom_not_mem (c : Char) :
    ∀ (xs : List Char) (i : Nat) (best : Option Nat), c ∉ xs →
      findLastFrom c xs i best = best := by
  intro xs
  induction xs with
  | nil => intro i best _; rfl
  | cons x xs ih =>
    intro i best h
    have hx : x ≠ c := fun e => h (e ▸ List.mem_cons_self _ _)
    have hxs : c ∉ xs := fun e => h (List.mem_cons_of_mem _ e)
    simp only [findLastFrom, if_neg hx]
    exact ih (i + 1) best hxs

/-- For every base name without a dot, `StripExt` removes only `.gz` from a `.nii.gz` name and
removes `.nii` from a `.nii` name. -/
theorem StripExtChars_base (b : List Char) (h : '.' ∉ b) :
    StripExtChars (b ++ ['.', 'n', 'i', 'i', '.', 'g', 'z']) = b ++ ['.', 'n', 'i', 'i'] ∧
    StripExtChars (b ++ ['.', 'n', 'i', 'i']) = b := by
  constructor
  · have hfind : find_last_of (b ++ ['.', 'n', 'i', 'i', '.', 'g', 'z']) '.' none
        = some (b.length + 4) := by
      simp only [find_last_of, findLastFrom_append, findLastFrom_not_mem '.' b 0 none h]
      simp [findLastFrom]
    have hdrop : (b ++ ['.', 'n', 'i', 'i', '.', 'g', 'z']).drop (b.length + 4)
        = ['.', 'g', 'z'] := by
      rw [List.drop_append]
      rfl
    have htake : (b ++ ['.', 'n', 'i', 'i', '.', 'g', 'z']).take (b.length + 4)
        = b ++ ['.', 'n', 'i', 'i'] := by
      rw [List.take_append]
      rfl
    simp only [StripExtChars, hfind, hdrop]
    rw [if_neg (by decide)]
    exact htake
  · have hfind : find_last_of (b ++ ['.', 'n', 'i', 'i']) '.' none = some b.length := by
      simp only [find_last_of, findLastFrom_append, findLastFrom_not_mem '.' b 0 none h]
      simp [findLastFrom]
    have hdrop : (b ++ ['.', 'n', 'i', 'i']).drop b.length = ['.', 'n', 'i', 'i'] := by
      simp
    simp only [StripExtChars, hfind, hdrop]
    rw [if_neg (by decide)]
    simp

/-- C15 (the code at the failing input): `StripExt("brain.nii.gz")` is `"brain.nii"`, not
`"brain"`.  The test `filename.substr(dot) == "gz"` compares `".gz"`, the dot included, with
`"gz"` and never holds, so only the last extension is removed; `StripExt("brain.nii")` is
`"brain"`. -/
theorem StripExt_nii_gz_keeps_nii :
    StripExt "brain.nii.gz" = "brain.nii" ∧ StripExt "brain.nii.gz" ≠ "brain" ∧
    StripExt "brain.nii" = "brain" := by
  decide

end FileNameTheorems

section ReorderLemmas

/-- Invariant rule for `loopFrom`: a loop whose condition holds for exactly the first `n` values
of its variable, run with fuel at least `n`, ends after `n` iterations in a state that satisfies
the invariant `P n`. -/
theorem loopFrom_invariant {σ : Type} (limit step : Nat) (body : Nat → σ → Option σ) :
    ∀ (n fuel i : Nat) (s : σ) (P : Nat → σ → Prop), n ≤ fuel →
      (∀ k, k < n → i + k * step < limit) → ¬ (i + n * step < limit) → P 0 s →
      (∀ k t, k < n → P k t → ∃ t1, body (i + k * step) t = some t1 ∧ P (k + 1) t1) →
      ∃ s1, loopFrom limit step body fuel i s = some s1 ∧ P n s1 := by
  intro n
  induction n with
  | zero =>
    intro fuel i s P _ _ hend h0 _
    have hnot : ¬ i < limit := by simpa using hend
    refine ⟨s, ?_, h0⟩
    cases fuel with
    | zero => simp [loopFrom, hnot]
    | succ fuel => simp [loopFrom, hnot]
  | succ n ih =>
    intro fuel i s P hfuel hcond hend h0 hstep
    obtain ⟨fuel, rfl⟩ : ∃ g, fuel = g + 1 := ⟨fuel - 1, by omega⟩
    have hi : i < limit := by simpa using hcond 0 (Nat.succ_pos n)
    obtain ⟨t1, hb, hP1⟩ := hstep 0 s (Nat.succ_pos n) h0
    simp only [Nat.zero_mul, Nat.add_zero] at hb
    have key := ih fuel (i + step) t1 (fun k t => P (k + 1) t) (by omega)
      (by
        intro k hk
        have := hcond (k + 1) (by omega)
        rw [Nat.add_mul, Nat.one_mul] at this
        omega)
      (by
        rw [Nat.add_mul, Nat.one_mul] at hend
        omega)
      hP1
      (by
        intro k t hk hPk
        have := hstep (k + 1) t (by omega) hPk
        rw [show i + (k + 1) * step = i + step + k * step by rw [Nat.add_mul, Nat.one_mul]; omega]
          at this
        exact this)
    obtain ⟨s1, hs1, hPn⟩ := key
    refine ⟨s1, ?_, hPn⟩
    simp only [loopFrom, hi, if_true, hb]
    exact hs1

/-- The innermost loop for the set that starts at `b + s`: it copies the `m = blocksize / stride`
volumes `b + s + k * stride` to consecutive outputs. -/
theorem volumeLoop_spec (f : ReorderImageFilter) (m fuel b s : Nat) (c : CopyState)
    (hbs : f.m_blocksize = m * f.m_stride) (hs : s < f.m_stride) (hfuel : m ≤ fuel) :
    ∃ c1, volumeLoop f fuel b (b + s) c = some c1 ∧ c1.o = c.o + m ∧
      c1.copies = c.copies ++ (List.range m).map (fun k => (b + s + k * f.m_stride, c.o + k)) := by
  have h := loopFrom_invariant (b + f.m_blocksize) f.m_stride copyVolume m fuel (b + s) c
    (fun k t => t.o = c.o + k ∧
      t.copies = c.copies ++ (List.range k).map (fun j => (b + s + j * f.m_stride, c.o + j)))
    hfuel
    (by
      intro k hk
      have h1 : (k + 1) * f.m_stride ≤ m * f.m_stride := Nat.mul_le_mul_right _ hk
      rw [Nat.add_mul, Nat.one_mul] at h1
      omega)
    (by omega)
    ⟨rfl, by simp⟩
    (by
      rintro k t _ ⟨ho, hc⟩
      refine ⟨_, rfl, ?_, ?_⟩
      · show t.o + 1 = c.o + (k + 1)
        omega
      · show t.copies ++ [(b + s + k * f.m_stride, t.o)] = _
        rw [hc, ho, List.range_succ, List.map_append, List.append_assoc]
        rfl)
  exact h

/-- The middle loop for the block that starts at `b`: `stride` sets of `m` volumes each. -/
theorem setLoop_spec (f : ReorderImageFilter) (m fuel b : Nat) (c : CopyState)
    (hbs : f.m_blocksize = m * f.m_stride) (hfuel : m ≤ fuel) (hfuel2 : f.m_stride ≤ fuel) :
    ∃ c1, setLoop f fuel b c = some c1 ∧ c1.o = c.o + f.m_stride * m ∧
      c1.copies = c.copies ++ (List.range f.m_stride).flatMap (fun s =>
        (List.range m).map (fun k => (b + s + k * f.m_stride, c.o + s * m + k))) := by
  have h := loopFrom_invariant (b + f.m_stride) 1 (volumeLoop f fuel b) f.m_stride fuel b c
    (fun s t => t.o = c.o + s * m ∧
      t.copies = c.copies ++ (List.range s).flatMap (fun s1 =>
        (List.range m).map (fun k => (b + s1 + k * f.m_stride, c.o + s1 * m + k))))
    hfuel2
    (by intro k hk; omega)
    (by omega)
    ⟨by simp, by simp⟩
    (by
      rintro s t hs ⟨ho, hc⟩
      obtain ⟨c1, hrun, ho1, hc1⟩ := volumeLoop_spec f m fuel b s t hbs hs hfuel
      refine ⟨c1, by rw [Nat.mul_one]; exact hrun, ?_, ?_⟩
      · rw [ho1, ho, Nat.add_mul, Nat.one_mul]
        omega
      · rw [hc1, hc, ho, List.range_succ, List.flatMap_append, List.flatMap_singleton,
          List.append_assoc])
  obtain ⟨c1, hrun, ho, hc⟩ := h
  exact ⟨c1, hrun, by rw [ho], hc⟩

/-- The outer loop: `blocks` blocks of `blocksize` volumes; the copies are the reference pairs
and the output counter ends at `blocks * blocksize`. -/
theorem blockLoop_spec (f : ReorderImageFilter) (m blocks fuel : Nat)
    (hbs : f.m_blocksize = m * f.m_stride) (hfull : f.m_fullsize = blocks * f.m_blocksize)
    (hpos : 0 < f.m_blocksize)
    (hfuel : m ≤ fuel) (hfuel2 : f.m_stride ≤ fuel) (hfuel3 : blocks ≤ fuel) :
    ∃ c1, blockLoop f fuel ⟨0, []⟩ = some c1 ∧ c1.o = blocks * f.m_blocksize ∧
      c1.copies = (List.range blocks).flatMap (fun B =>
        (List.range f.m_stride).flatMap (fun s =>
          (List.range m).map (fun k =>
            (B * f.m_blocksize + s + k * f.m_stride, B * f.m_blocksize + s * m + k)))) := by
  have h := loopFrom_invariant f.m_fullsize f.m_blocksize (setLoop f fuel) blocks fuel 0
    (⟨0, []⟩ : CopyState)
    (fun B t => t.o = B * f.m_blocksize ∧
      t.copies = (List.range B).flatMap (fun B1 =>
        (List.range f.m_stride).flatMap (fun s =>
          (List.range m).map (fun k =>
            (B1 * f.m_blocksize + s + k * f.m_stride, B1 * f.m_blocksize + s * m + k)))))
    hfuel3
    (by
      intro k hk
      have h1 : (k + 1) * f.m_blocksize ≤ blocks * f.m_blocksize := Nat.mul_le_mul_right _ hk
      rw [Nat.add_mul, Nat.one_mul] at h1
      omega)
    (by omega)
    ⟨by simp, by simp⟩
    (by
      rintro B t _ ⟨ho, hc⟩
      obtain ⟨c1, hrun, ho1, hc1⟩ := setLoop_spec f m fuel (0 + B * f.m_blocksize) t hbs hfuel
        hfuel2
      refine ⟨c1, hrun, ?_, ?_⟩
      · rw [ho1, ho, Nat.add_mul, Nat.one_mul, hbs]
        rw [Nat.mul_comm f.m_stride m]
      · rw [hc1, hc, ho, List.range_succ, List.flatMap_append, List.flatMap_singleton,
          Nat.zero_add])
  exact h

/-- Nested ranges enumerate consecutive numbers: the values `base + x * b + y` for `x < a`,
`y < b`, in the order of increasing `x`, then `y`, are `base, base + 1, ..., base + a * b - 1`. -/
theorem flatMap_range_consecutive (base b : Nat) :
    ∀ a : Nat, (List.range a).flatMap (fun x => (List.range b).map (fun y => base + x * b + y))
      = List.range' base (a * b) := by
  intro a
  induction a with
  | zero => simp
  | succ a ih =>
    rw [List.range_succ, List.flatMap_append, ih, List.flatMap_singleton, Nat.add_mul,
      Nat.one_mul, Nat.add_comm (a * b) b, ← List.range'_append_1 base (a * b) b,
      List.range'_eq_map_range (base + a * b)]

/-- The output volumes of the reference pairs are `0, 1, ..., blocks * blocksize - 1` in this
order. -/
theorem reorderPairs_outputs (blocks m stride : Nat) :
    (reorderPairs blocks (m * stride) stride).map Prod.snd
      = List.range (blocks * (m * stride)) := by
  rcases Nat.eq_zero_or_pos stride with rfl | hpos
  · simp [reorderPairs]
  · have hm : m * stride / stride = m := Nat.mul_div_cancel m hpos
    have hinner : ∀ B : Nat, (List.range stride).flatMap (fun s =>
        (List.range m).map (fun k => B * (m * stride) + s * m + k))
        = (List.range (m * stride)).map (fun y => 0 + B * (m * stride) + y) := by
      intro B
      rw [flatMap_range_consecutive (B * (m * stride)) m stride, Nat.mul_comm stride m,
        List.range'_eq_map_range]
      simp
    simp only [reorderPairs, hm, List.map_flatMap, List.map_map, Function.comp_def, hinner]
    rw [flatMap_range_consecutive 0 (m * stride) blocks, List.range_eq_range']

theorem mem_reorderPairs (blocks blocksize stride : Nat) (p : Nat × Nat) :
    p ∈ reorderPairs blocks blocksize stride ↔
      ∃ B s k, B < blocks ∧ s < stride ∧ k < blocksize / stride ∧
        p = (B * blocksize + s + k * stride, B * blocksize + s * (blocksize / stride) + k) := by
  simp only [reorderPairs, List.mem_flatMap, List.mem_map, List.mem_range]
  constructor
  · rintro ⟨B, hB, s, hs, k, hk, rfl⟩
    exact ⟨B, s, k, hB, hs, hk, rfl⟩
  · rintro ⟨B, s, k, hB, hs, hk, rfl⟩
    exact ⟨B, hB, s, hs, k, hk, rfl⟩

/-- A list of `n` numbers that contains every number below `n` is a permutation of
`0, ..., n - 1`. -/
theorem perm_range_of_mem (l : List Nat) (n : Nat) (hlen : l.length = n)
    (hmem : ∀ j, j < n → j ∈ l) : l.Perm (List.range n) := by
  have hsub : (List.range n).Subperm l :=
    List.subperm_of_subset (List.nodup_range n) (fun j hj => hmem j (List.mem_range.1 hj))
  exact (hsub.perm_of_length_le (by simp [hlen])).symm

/-- When no exception is thrown `GenerateData` sets the members and runs the block loop. -/
theorem GenerateData_eq_blockLoop (f : ReorderImageFilter) (fullsize blocksize : Nat)
    (hblock : blocksize = if f.m_blocksize = 0 then fullsize else f.m_blocksize)
    (hpos : 0 < blocksize) (hstride : 0 < f.m_stride)
    (hmod1 : fullsize % blocksize = 0) (hmod2 : blocksize % f.m_stride = 0) :
    GenerateData f fullsize =
      match blockLoop ⟨f.m_stride, blocksize, fullsize, fullsize / blocksize⟩ fullsize ⟨0, []⟩ with
      | none => (⟨f.m_stride, blocksize, fullsize, fullsize / blocksize⟩, ReorderExit.outOfFuel)
      | some s => (⟨f.m_stride, blocksize, fullsize, fullsize / blocksize⟩,
          ReorderExit.done s.copies) := by
  have hs : f.m_stride ≠ 0 := Nat.pos_iff_ne_zero.1 hstride
  have hb : blocksize ≠ 0 := Nat.pos_iff_ne_zero.1 hpos
  by_cases h0 : f.m_blocksize = 0
  · rw [if_pos h0] at hblock
    subst hblock
    simp [GenerateData, h0, hb, hs, hmod2]
  · rw [if_neg h0] at hblock
    subst hblock
    simp [GenerateData, h0, hs, hmod1, hmod2]

end ReorderLemmas

section ReorderTheorems

/-- C16: for every `fullsize ≥ 1`, `stride ≥ 1` and blocksize (0 replaced by `fullsize`) such
that the blocksize divides `fullsize` and the stride divides the blocksize, `GenerateData` throws
no exception and ends after copying by a bijection.  The output counter takes the values
`0, ..., fullsize - 1` once each, in order; the input volumes read are a permutation of
`0, ..., fullsize - 1`; within the block starting at `b = B * blocksize` the input volume
`b + s + k * stride` goes to the output volume `b + s * (blocksize / stride) + k`; and when the
stride is `1` or the blocksize every volume is copied to itself. -/
theorem GenerateData_copies_by_bijection (f : ReorderImageFilter) (fullsize blocksize : Nat)
    (hfull : 1 ≤ fullsize) (hstride : 1 ≤ f.m_stride)
    (hblock : blocksize = if f.m_blocksize = 0 then fullsize else f.m_blocksize)
    (hdiv1 : blocksize ∣ fullsize) (hdiv2 : f.m_stride ∣ blocksize) :
    ∃ copies : List (Nat × Nat),
      GenerateData f fullsize
        = (⟨f.m_stride, blocksize, fullsize, fullsize / blocksize⟩, ReorderExit.done copies) ∧
      copies = reorderPairs (fullsize / blocksize) blocksize f.m_stride ∧
      copies.map Prod.snd = List.range fullsize ∧
      (copies.map Prod.fst).Perm (List.range fullsize) ∧
      (∀ B s k : Nat, B * blocksize < fullsize → s < f.m_stride → k < blocksize / f.m_stride →
        (B * blocksize + s + k * f.m_stride,
          B * blocksize + s * (blocksize / f.m_stride) + k) ∈ copies) ∧
      ((f.m_stride = 1 ∨ f.m_stride = blocksize) → ∀ p ∈ copies, p.1 = p.2) := by
  obtain ⟨blocks, hblocks⟩ := hdiv1
  obtain ⟨m, hm⟩ := hdiv2
  have hpos : 0 < blocksize := by
    rcases Nat.eq_zero_or_pos blocksize with h | h
    · rw [h, Nat.zero_mul] at hblocks
      omega
    · exact h
  have hmpos : 0 < m := by
    rcases Nat.eq_zero_or_pos m with h | h
    · rw [h, Nat.mul_zero] at hm
      omega
    · exact h
  have hbpos : 0 < blocks := by
    rcases Nat.eq_zero_or_pos blocks with h | h
    · rw [h, Nat.mul_zero] at hblocks
      omega
    · exact h
  have hm2 : blocksize = m * f.m_stride := by rw [hm, Nat.mul_comm]
  have hb2 : fullsize = blocks * blocksize := by rw [hblocks, Nat.mul_comm]
  have hdivm : blocksize / f.m_stride = m := by
    rw [hm2]; exact Nat.mul_div_cancel m hstride
  have hdivb : fullsize / blocksize = blocks := by
    rw [hb2]; exact Nat.mul_div_cancel blocks hpos
  have hle1 : blocksize ≤ fullsize := by
    rw [hb2]; exact Nat.le_mul_of_pos_left _ hbpos
  have hle2 : m ≤ blocksize := by
    rw [hm2]; exact Nat.le_mul_of_pos_right _ hstride
  have hle3 : f.m_stride ≤ blocksize := by
    rw [hm2]; exact Nat.le_mul_of_pos_left _ hmpos
  have hle4 : blocks ≤ fullsize := by
    rw [hb2]; exact Nat.le_mul_of_pos_right _ hpos
  obtain ⟨c1, hrun, -, hcopies⟩ :=
    blockLoop_spec ⟨f.m_stride, blocksize, fullsize, fullsize / blocksize⟩ m blocks fullsize
      hm2 hb2 hpos (by omega) (by show f.m_stride ≤ fullsize; omega) hle4
  have hcopies2 : c1.copies = reorderPairs (fullsize / blocksize) blocksize f.m_stride := by
    rw [hcopies, hdivb]
    simp only [reorderPairs, hdivm]
  have hout : c1.copies.map Prod.snd = List.range fullsize := by
    rw [hcopies2, hdivb, hb2, hm2]
    exact reorderPairs_outputs blocks m f.m_stride
  have hmem : ∀ B s k : Nat, B * blocksize < fullsize → s < f.m_stride →
      k < blocksize / f.m_stride →
      (B * blocksize + s + k * f.m_stride,
        B * blocksize + s * (blocksize / f.m_stride) + k) ∈ c1.copies := by
    intro B s k hB hs hk
    rw [hcopies2, mem_reorderPairs]
    refine ⟨B, s, k, ?_, hs, hk, rfl⟩
    rw [hdivb]
    rw [hb2] at hB
    exact Nat.lt_of_mul_lt_mul_right hB
  refine ⟨c1.copies, ?_, hcopies2, hout, ?_, hmem, ?_⟩
  · rw [GenerateData_eq_blockLoop f fullsize blocksize hblock hpos hstride
      (by rw [hb2]; exact Nat.mul_mod_left _ _) (by rw [hm2]; exact Nat.mul_mod_left _ _), hrun]
  · apply perm_range_of_mem
    · have := congrArg List.length hout
      simpa using this
    · intro j hj
      have hr : j % blocksize < blocksize := Nat.mod_lt _ hpos
      have hB : j / blocksize * blocksize < fullsize := by
        have := Nat.div_mul_le_self j blocksize
        omega
      have hk : j % blocksize / f.m_stride < blocksize / f.m_stride := by
        rw [hdivm]
        apply Nat.div_lt_of_lt_mul
        rw [Nat.mul_comm, ← hm2]
        exact hr
      have hs : j % blocksize % f.m_stride < f.m_stride := Nat.mod_lt _ hstride
      have := hmem (j / blocksize) (j % blocksize % f.m_stride) (j % blocksize / f.m_stride)
        hB hs hk
      have hj2 : j / blocksize * blocksize + j % blocksize % f.m_stride
          + j % blocksize / f.m_stride * f.m_stride = j := by
        have h1 := Nat.div_add_mod j blocksize
        have h2 := Nat.div_add_mod (j % blocksize) f.m_stride
        rw [Nat.mul_comm] at h1 h2
        omega
      rw [hj2] at this
      exact List.mem_map.2 ⟨_, this, rfl⟩
  · intro hid p hp
    rw [hcopies2, mem_reorderPairs] at hp
    obtain ⟨B, s, k, -, hs, hk, rfl⟩ := hp
    rcases hid with h1 | h1
    · have hs0 : s = 0 := by omega
      rw [hs0, h1]
      simp
    · rw [h1, Nat.div_self hpos] at hk
      have hk0 : k = 0 := by omega
      rw [hk0, h1, Nat.div_self hpos]
      simp

/-- Witness of C16: twelve volumes in blocks of six with stride three. -/
theorem GenerateData_copies_by_bijection_witness :
    ∃ copies : List (Nat × Nat),
      GenerateData ⟨3, 6, 0, 0⟩ 12 = (⟨3, 6, 12, 12 / 6⟩, ReorderExit.done copies) ∧
      copies = reorderPairs (12 / 6) 6 3 ∧
      copies.map Prod.snd = List.range 12 ∧
      (copies.map Prod.fst).Perm (List.range 12) ∧
      (∀ B s k : Nat, B * 6 < 12 → s < 3 → k < 6 / 3 →
        (B * 6 + s + k * 3, B * 6 + s * (6 / 3) + k) ∈ copies) ∧
      (((3 : Nat) = 1 ∨ (3 : Nat) = 6) → ∀ p ∈ copies, p.1 = p.2) :=
  GenerateData_copies_by_bijection ⟨3, 6, 0, 0⟩ 12 6 (by decide) (by decide) (by decide)
    ⟨2, by decide⟩ ⟨2, by decide⟩

end ReorderTheorems


section AffineTheorems

/-- For every supported image (FLOAT or DOUBLE, three or four dimensions) the dispatch reaches
the call `QI::Fail("Unimplemented component type ...")` after the pipeline, and it returns
`EXIT_SUCCESS` only if that call returns. -/
theorem affine_dispatch_reaches_default (failEnds : Bool) (dims : Nat) (dtype : IOComponentType)
    (hd : dims = 3 ∨ dims = 4)
    (ht : dtype = IOComponentType.FLOAT ∨ dtype = IOComponentType.DOUBLE) :
    AffineEvent.fail FailMessage.unimplementedComponentType
        ∈ (affine_dispatch failEnds dims dtype).events ∧
    ((affine_dispatch failEnds dims dtype).exit = AffineExit.returned EXIT_SUCCESS
      ↔ failEnds = false) := by
  rcases hd with rfl | rfl <;> rcases ht with rfl | rfl <;> cases failEnds <;> decide

/-- C18 (the code at the failing input): for a FLOAT image of three dimensions the dispatch runs
the pipeline twice, as `<float, 3>` and then, falling through to `case DOUBLE`, as `<double, 3>`,
and falls through again to `default`, where it calls `QI::Fail("Unimplemented component type
...")`.  When `QI::Fail` ends the process the exit status is `EXIT_FAILURE`; `EXIT_SUCCESS` is
only returned if `QI::Fail` returns.  A DOUBLE image of three dimensions runs the pipeline once
and reaches the same call. -/
theorem affine_dispatch_float_falls_through :
    affine_dispatch true 3 IOComponentType.FLOAT =
      ⟨[AffineEvent.pipeline PixelType.float 3, AffineEvent.pipeline PixelType.double 3,
          AffineEvent.fail FailMessage.unimplementedComponentType],
        AffineExit.exited EXIT_FAILURE⟩ ∧
    affine_dispatch false 3 IOComponentType.FLOAT =
      ⟨[AffineEvent.pipeline PixelType.float 3, AffineEvent.pipeline PixelType.double 3,
          AffineEvent.fail FailMessage.unimplementedComponentType],
        AffineExit.returned EXIT_SUCCESS⟩ ∧
    affine_dispatch true 3 IOComponentType.DOUBLE =
      ⟨[AffineEvent.pipeline PixelType.double 3,
          AffineEvent.fail FailMessage.unimplementedComponentType],
        AffineExit.exited EXIT_FAILURE⟩ := by
  decide

end AffineTheorems

end QI
